import Mathlib

/-!
# Qt preview window: a model of `preview/qt_preview.cpp`

The development embeds the class `QtPreview` (constructor, `Show`, `Quit`, `Reset`,
`SetInfoText`, `MaxImageSize`) and the close handler of `MyMainWindow`.

Conventions of the embedding.

* A C++ `int` is a Lean `Int`, of 32 bits: the values that an `int` computation produces are
  listed (`line87`, `line91`, `line101`), and the computation is undefined, see below, as soon
  as one of them does not fit.  Integer division and remainder are the truncating `Int.tdiv`
  and `Int.tmod`.
* A store into a `uint16_t` or `uint8_t` object reduces the value modulo `2 ^ 16` or `2 ^ 8`.
* A `double` is a finite binary floating point number `mant * 2 ^ expo`; every operation is
  computed exactly and then rounded to 53 significant bits, ties to even.  All values that
  arise from byte samples are far inside the normal range of binary64.  A compiler may
  contract a product and the sum or difference that uses it into one fused operation with a
  single rounding; which of the expressions of lines 122 to 127 are contracted is a parameter
  `FpContract` of the model, and what is proved holds for every value of it.
* An operation whose behaviour is undefined (a read outside the frame memory, outside the
  index vector, a store outside the raster, a division by zero, an overflow of `int`) or that
  throws yields `none`.
* What a call does to the outside world is returned as a list of `Effect`s, in order.
-/

namespace Preview

/-! ## Machine arithmetic -/

/-- Conversion of an `int` to `uint16_t`. -/
def toUInt16 (z : Int) : Nat := (z % 65536).toNat

/-- Conversion of an `int` to `uint8_t`. -/
def toUInt8 (z : Int) : Nat := (z % 256).toNat

/-- The function `std::clamp(v, lo, hi)`. -/
def clamp (v lo hi : Int) : Int := if v < lo then lo else if hi < v then hi else v

/-- The value fits the 32-bit type `int`. -/
def FitsInt (z : Int) : Prop := -2147483648 ≤ z ∧ z ≤ 2147483647

instance (z : Int) : Decidable (FitsInt z) := by
  unfold FitsInt
  infer_instance

/-- Number of binary digits of `n`, by halving at most `fuel` times. -/
def bitLengthAux : Nat → Nat → Nat
  | 0, _ => 0
  | fuel + 1, n => if n = 0 then 0 else bitLengthAux fuel (n / 2) + 1

/-- Number of binary digits of `n` (`0` for `n = 0`). -/
def bitLength (n : Nat) : Nat := bitLengthAux n n

/-- A finite binary floating point number, of value `mant * 2 ^ expo`. -/
structure Double where
  mant : Int
  expo : Int
deriving DecidableEq, Repr

namespace Double

/-- The binary64 number nearest to `m * 2 ^ e`, ties to even: the significand is cut to 53
binary digits. -/
def round53 (m e : Int) : Double :=
  let a := m.natAbs
  let n := bitLength a
  if n ≤ 53 then ⟨m, e⟩
  else
    let sh := n - 53
    let q := a / 2 ^ sh
    let r := a % 2 ^ sh
    let half := 2 ^ (sh - 1)
    let q1 := if half < r ∨ (r = half ∧ q % 2 = 1) then q + 1 else q
    ⟨Int.sign m * (q1 : Int), e + (sh : Int)⟩

/-- Conversion of an `int` to `double`. -/
def ofInt (z : Int) : Double := round53 z 0

/-- The value of a decimal literal `digits / 10 ^ scale` (with `digits > 0`): the quotient is
taken with at least 55 binary digits and a sticky last digit, then rounded. -/
def ofDecimal (digits scale : Nat) : Double :=
  let d := 10 ^ scale
  let k := 55 + bitLength d
  let q := digits * 2 ^ k / d
  let r := digits * 2 ^ k % d
  round53 ((2 * q + (if r = 0 then 0 else 1) : Nat) : Int) (-((k : Int) + 1))

/-- Multiplication of doubles. -/
def mul (a b : Double) : Double := round53 (a.mant * b.mant) (a.expo + b.expo)

/-- Addition of doubles. -/
def add (a b : Double) : Double :=
  let e := min a.expo b.expo
  round53 (a.mant * 2 ^ (a.expo - e).toNat + b.mant * 2 ^ (b.expo - e).toNat) e

/-- Negation of a double. -/
def neg (a : Double) : Double := ⟨-a.mant, a.expo⟩

/-- Subtraction of doubles. -/
def sub (a b : Double) : Double := add a (neg b)

/-- The fused operation `a * b + c`: the product is not rounded. -/
def fma (a b c : Double) : Double := add ⟨a.mant * b.mant, a.expo + b.expo⟩ c

/-- The fused operation `c - a * b`: the product is not rounded. -/
def fnma (a b c : Double) : Double := add c ⟨-(a.mant * b.mant), a.expo + b.expo⟩

/-- Conversion of a `double` to `int`: the fractional part is discarded. -/
def toInt (a : Double) : Int :=
  if 0 ≤ a.expo then a.mant * 2 ^ a.expo.toNat else a.mant.tdiv (2 ^ (-a.expo).toNat)

end Double

/-! ## Colour conversion (lines 122 to 127) -/

/-- Which expressions the compiler contracts into fused operations: `Y + 1.402 * V`, the
difference `Y - 0.345 * U`, the difference of that and `0.714 * V`, and `Y + 1.771 * U`. -/
structure FpContract where
  red : Bool
  greenU : Bool
  greenV : Bool
  blue : Bool
deriving DecidableEq, Repr

/-- No expression is contracted. -/
def FpContract.off : FpContract := ⟨false, false, false, false⟩

/-- Every expression is contracted. -/
def FpContract.on : FpContract := ⟨true, true, true, true⟩

/-- The expression `Y + 1.402 * V`, converted to `int`. -/
def red (c : FpContract) (Y V : Int) : Int :=
  (if c.red then Double.fma (Double.ofDecimal 1402 3) (Double.ofInt V) (Double.ofInt Y)
    else Double.add (Double.ofInt Y)
      (Double.mul (Double.ofDecimal 1402 3) (Double.ofInt V))).toInt

/-- The expression `Y - 0.345 * U - 0.714 * V`, converted to `int`. -/
def green (c : FpContract) (Y U V : Int) : Int :=
  let t : Double :=
    if c.greenU then Double.fnma (Double.ofDecimal 345 3) (Double.ofInt U) (Double.ofInt Y)
    else Double.sub (Double.ofInt Y) (Double.mul (Double.ofDecimal 345 3) (Double.ofInt U))
  (if c.greenV then Double.fnma (Double.ofDecimal 714 3) (Double.ofInt V) t
    else Double.sub t (Double.mul (Double.ofDecimal 714 3) (Double.ofInt V))).toInt

/-- The expression `Y + 1.771 * U`, converted to `int`. -/
def blue (c : FpContract) (Y U : Int) : Int :=
  (if c.blue then Double.fma (Double.ofDecimal 1771 3) (Double.ofInt U) (Double.ofInt Y)
    else Double.add (Double.ofInt Y)
      (Double.mul (Double.ofDecimal 1771 3) (Double.ofInt U))).toInt

/-! ## Data -/

/-- Modelled from the spec: the option record read by the constructor (its declaration is in a
header that is not part of the sources).  The recognised options are the window size, the
window placement and `verbose`; the size options are read into `int` members. -/
structure Options where
  preview_width : Int
  preview_height : Int
  preview_x : Int
  preview_y : Int
  verbose : Bool
deriving DecidableEq, Repr

/-- What a call does to its environment. -/
inductive Effect where
  /-- The rendering thread is started (line 66). -/
  | threadStart
  /-- The main window is moved (line 165). -/
  | move (x y : Int)
  /-- The main window is shown (line 166). -/
  | showWindow
  /-- A line is printed on standard output (line 71). -/
  | print (text : String)
  /-- One byte is stored through the write pointer, `offset` bytes into the raster. -/
  | store (offset byte : Nat)
  /-- A repaint is requested with `pane_->update()` (line 137). -/
  | update
  /-- The release callback `done_callback_` is called (line 140). -/
  | done (fd : Int)
  /-- The window title is set (line 78). -/
  | setWindowTitle (text : String)
  /-- The close event is ignored (line 30). -/
  | ignore
deriving DecidableEq, Repr

/-- The class `MyMainWindow`. -/
structure MyMainWindow where
  quit : Bool
deriving DecidableEq, Repr

/-- The class `MyWidget`: `image` holds the bytes behind `image.bits()`. -/
structure MyWidget where
  image : List Nat
deriving DecidableEq, Repr

/-- The data members of the class `QtPreview`. -/
structure QtPreview where
  main_window_ : MyMainWindow
  pane_ : MyWidget
  x_locations_ : List Nat
  last_image_width_ : Int
  window_width_ : Int
  window_height_ : Int
deriving DecidableEq, Repr

/-- The write pointer `dest` of `Show`, as an offset into the raster, with the raster and the
stores made so far. -/
structure Dest where
  dest : Nat
  image : List Nat
  stores : List Effect
deriving DecidableEq, Repr

/-! ## Construction and the small operations -/

/-- The handler `MyMainWindow::closeEvent` (lines 28 to 32). -/
def closeEvent (w : MyMainWindow) : MyMainWindow × List Effect :=
  ({ w with quit := true }, [Effect.ignore])

/-- Modelled from the spec: the raster made by `QImage(size, QImage::Format_RGB888)` followed
by `image.fill(0)` (lines 40 and 41; the class `QImage` is not part of the sources).  It is a
buffer of `w * h` interleaved 8-bit RGB triples. -/
def newImage (w h : Int) : List Nat := List.replicate (3 * w.toNat * h.toNat) 0

/-- The constructor `QtPreview::QtPreview` (lines 57 to 72) together with `threadFunc`
(lines 151 to 170), as called by `make_qt_preview`.  A thrown `std::runtime_error` is an
`Except.error` with its message. -/
def make_qt_preview (options : Options) : Except String QtPreview × List Effect :=
  let window_width_ := options.preview_width
  let window_height_ := options.preview_height
  if window_width_.tmod 2 ≠ 0 ∨ window_height_.tmod 2 ≠ 0 then
    (Except.error "QtPreview: expect even dimensions", [])
  else
    let size : Int × Int :=
      if window_width_ = 0 ∨ window_height_ = 0 then (512, 384)
      else (window_width_, window_height_)
    (Except.ok
      { main_window_ := { quit := false }
        pane_ := { image := newImage size.1 size.2 }
        x_locations_ := []
        last_image_width_ := 0
        window_width_ := size.1
        window_height_ := size.2 },
     [Effect.threadStart, Effect.move (options.preview_x + 2) (options.preview_y + 28),
      Effect.showWindow] ++
      (if options.verbose then [Effect.print "Made Qt preview"] else []))

/-- The method `SetInfoText` (line 78). -/
def SetInfoText (s : QtPreview) (text : String) : QtPreview × List Effect :=
  (s, [Effect.setWindowTitle text])

/-- The method `Reset` (line 144). -/
def Reset (s : QtPreview) : QtPreview := s

/-- The method `Quit` (line 146). -/
def Quit (s : QtPreview) : Bool := s.main_window_.quit

/-- The method `MaxImageSize` (line 148): both outputs are set to zero. -/
def MaxImageSize (_s : QtPreview) : Nat × Nat := (0, 0)

/-! ## The method `Show` -/

/-- The call `x_locations_.resize(n)`. -/
def resize (xs : List Nat) (n : Nat) : List Nat := xs.take n ++ List.replicate (n - xs.length) 0

/-- The values of type `int` that line 87 computes for the position `i`: the operands, the
product, the sum and the quotient. -/
def line87 (window_width_ width : Int) (i : Nat) : List Int :=
  [width - 1,
   (i : Int) * (width - 1),
   window_width_ - 1,
   (window_width_ - 1).tdiv 2,
   (i : Int) * (width - 1) + (window_width_ - 1).tdiv 2,
   ((i : Int) * (width - 1) + (window_width_ - 1).tdiv 2).tdiv (window_width_ - 1)]

/-- The values of type `int` that lines 91 and 92 compute: the size of the luma plane and the
size of a chroma plane. -/
def line91 (height stride : Int) : List Int :=
  [stride * height, stride.tdiv 2, height.tdiv 2, stride.tdiv 2 * height.tdiv 2]

/-- The values of type `int` that lines 101 to 103 compute for the destination row `y`: the
source row with its operands, and the offsets of the row in the luma and chroma planes. -/
def line101 (window_height_ height stride : Int) (y : Nat) : List Int :=
  [height - 1,
   (y : Int) * (height - 1),
   window_height_ - 1,
   (window_height_ - 1).tdiv 2,
   (y : Int) * (height - 1) + (window_height_ - 1).tdiv 2,
   ((y : Int) * (height - 1) + (window_height_ - 1).tdiv 2).tdiv (window_height_ - 1),
   ((y : Int) * (height - 1) + (window_height_ - 1).tdiv 2).tdiv (window_height_ - 1) * stride,
   (((y : Int) * (height - 1) + (window_height_ - 1).tdiv 2).tdiv (window_height_ - 1)).tdiv 2 *
     stride.tdiv 2]

/-- The loop of lines 86 and 87, with `n` iterations to go and counter `i`.  A division by zero
and an overflow of `int` are undefined. -/
def fillLocations (window_width_ width : Int) : Nat → Nat → List Nat → Option (List Nat)
  | 0, _, xs => some xs
  | n + 1, i, xs =>
    if window_width_ - 1 = 0 then none
    else if ¬ (∀ z ∈ line87 window_width_ width i, FitsInt z) then none
    else if i < xs.length then
      fillLocations window_width_ width n (i + 1)
        (xs.set i (toUInt16
          (((i : Int) * (width - 1) + (window_width_ - 1).tdiv 2).tdiv (window_width_ - 1))))
    else none

/-- Lines 82 to 88: the sampling locations are computed again when the width of the frame is
not the one seen last.  A negative size makes `resize` throw. -/
def refreshLocations (s : QtPreview) (width : Int) : Option QtPreview :=
  if s.last_image_width_ ≠ width then
    if s.window_width_ < 0 then none
    else
      (fillLocations s.window_width_ width s.window_width_.toNat 0
        (resize s.x_locations_ s.window_width_.toNat)).map
        fun xs => { s with last_image_width_ := width, x_locations_ := xs }
  else some s

/-- A read of the byte at `offset` from `span.data()`. -/
def readByte (span : List Nat) (offset : Int) : Option Nat :=
  if 0 ≤ offset then span[offset.toNat]? else none

/-- The statement `*(dest++) = v` for an `int` value `v`. -/
def Dest.put (d : Dest) (v : Int) : Option Dest :=
  if d.dest < d.image.length then
    some
      { dest := d.dest + 1
        image := d.image.set d.dest (toUInt8 v)
        stores := d.stores ++ [Effect.store d.dest (toUInt8 v)] }
  else none

/-- The body of the inner loop (lines 107 to 133) for the columns `x` and `x + 1`. -/
def convertPair (c : FpContract) (x_locations_ span : List Nat) (Y_row U_row V_row : Int)
    (x : Nat) (d : Dest) : Option Dest := do
  let y_off0 ← x_locations_[x]?
  let y_off1 ← x_locations_[x + 1]?
  let uv_off0 := y_off0 >>> 1
  let uv_off1 := y_off0 >>> 1
  let Y0 ← readByte span (Y_row + y_off0)
  let Y1 ← readByte span (Y_row + y_off1)
  let U0 ← readByte span (U_row + uv_off0)
  let V0 ← readByte span (V_row + uv_off0)
  let U1 ← readByte span (U_row + uv_off1)
  let V1 ← readByte span (V_row + uv_off1)
  let U0 : Int := U0 - 128
  let V0 : Int := V0 - 128
  let U1 : Int := U1 - 128
  let V1 : Int := V1 - 128
  let R0 := red c Y0 V0
  let G0 := green c Y0 U0 V0
  let B0 := blue c Y0 U0
  let R1 := red c Y1 V1
  let G1 := green c Y1 U1 V1
  let B1 := blue c Y1 U1
  let d ← d.put (clamp R0 0 255)
  let d ← d.put (clamp G0 0 255)
  let d ← d.put (clamp B0 0 255)
  let d ← d.put (clamp R1 0 255)
  let d ← d.put (clamp G1 0 255)
  d.put (clamp B1 0 255)

/-- A counted loop over the write pointer: `n` iterations to go, counter `i`, the counter
advancing by `step` in each iteration. -/
def forLoop (body : Nat → Dest → Option Dest) (step : Nat) : Nat → Nat → Dest → Option Dest
  | 0, _, d => some d
  | n + 1, i, d => (body i d).bind (forLoop body step n (i + step))

/-- The body of the outer loop (lines 101 to 134) for the destination row `y`.  The pointers
are offsets from `span.data()`; the inner loop runs for `x = 0, 2, 4, ...` below
`window_width_`.  A division by zero and an overflow of `int` are undefined. -/
def convertLine (c : FpContract) (s : QtPreview) (span : List Nat) (height stride : Int)
    (y : Nat) (d : Dest) : Option Dest :=
  if s.window_height_ - 1 = 0 then none
  else if ¬ (∀ z ∈ line101 s.window_height_ height stride y, FitsInt z) then none
  else
    let Y_start : Int := 0
    let U_start : Int := Y_start + stride * height
    let uv_size : Int := stride.tdiv 2 * height.tdiv 2
    let row : Int :=
      ((y : Int) * (height - 1) + (s.window_height_ - 1).tdiv 2).tdiv (s.window_height_ - 1)
    let Y_row : Int := Y_start + row * stride
    let U_row : Int := U_start + row.tdiv 2 * stride.tdiv 2
    let V_row : Int := U_row + uv_size
    forLoop (convertPair c s.x_locations_ span Y_row U_row V_row) 2
      ((s.window_width_.toNat + 1) / 2) 0 d

/-- The method `Show` (lines 79 to 141), for a build with the contractions `c`.  The sizes of
the planes (lines 91 and 92) are computed before the loops; their overflow is undefined. -/
def Show (c : FpContract) (s : QtPreview) (fd : Int) (span : List Nat)
    (width height stride : Int) : Option (QtPreview × List Effect) :=
  (refreshLocations s width).bind fun s1 =>
    if ¬ (∀ z ∈ line91 height stride, FitsInt z) then none
    else
      (forLoop (convertLine c s1 span height stride) 1 s1.window_height_.toNat 0
        { dest := 0, image := s1.pane_.image, stores := [] }).map fun d =>
        ({ s1 with pane_ := { image := d.image } }, d.stores ++ [Effect.update, Effect.done fd])

/-! ## Functions used to state the properties -/

/-- Number of destination columns of a sink. -/
def QtPreview.cols (s : QtPreview) : Nat := s.window_width_.toNat

/-- Number of destination rows of a sink. -/
def QtPreview.rows (s : QtPreview) : Nat := s.window_height_.toNat

/-- The value that line 87 stores at position `i` of the index vector, for a window of width
`window_width_` and a frame of width `width`, when none of its `int` operations overflows. -/
def cacheEntry (window_width_ width : Int) (i : Nat) : Nat :=
  toUInt16 (((i : Int) * (width - 1) + (window_width_ - 1).tdiv 2).tdiv (window_width_ - 1))

/-- The index vector computed for a frame of width `width`, when no `int` operation of line 87
overflows. -/
def xTable (window_width_ width : Int) : List Nat :=
  (List.range window_width_.toNat).map (cacheEntry window_width_ width)

/-- The documented nearest-neighbour formula `floor((i * (src - 1) + (dst - 1) / 2) / (dst - 1))`,
over the unbounded integers with flooring division. -/
def nearest (dst src : Int) (i : Nat) : Int := ((i : Int) * (src - 1) + (dst - 1) / 2) / (dst - 1)

/-- The documented conversion with decimal coefficients, truncated toward zero:
`R = Y + 1.402 * V`. -/
def decimalRed (Y V : Int) : Int := (1000 * Y + 1402 * V).tdiv 1000

/-- The documented conversion with decimal coefficients, truncated toward zero:
`G = Y - 0.345 * U - 0.714 * V`. -/
def decimalGreen (Y U V : Int) : Int := (1000 * Y - 345 * U - 714 * V).tdiv 1000

/-- The documented conversion with decimal coefficients, truncated toward zero:
`B = Y + 1.771 * U`. -/
def decimalBlue (Y U : Int) : Int := (1000 * Y + 1771 * U).tdiv 1000

/-- Offset of the luma sample documented for the destination pixel `(x, y)`. -/
def yOffset (s : QtPreview) (width height stride : Int) (y x : Nat) : Int :=
  nearest s.window_height_ height y * stride + (cacheEntry s.window_width_ width x : Int)

/-- Offset of the `U` sample documented for the destination pixel `(x, y)`: the column is the
one of the first pixel of the pair that holds `x`. -/
def uOffset (s : QtPreview) (width height stride : Int) (y x : Nat) : Int :=
  stride * height + nearest s.window_height_ height y / 2 * (stride / 2) +
    ((cacheEntry s.window_width_ width (2 * (x / 2)) >>> 1 : Nat) : Int)

/-- Offset of the `V` sample documented for the destination pixel `(x, y)`. -/
def vOffset (s : QtPreview) (width height stride : Int) (y x : Nat) : Int :=
  stride * height + stride / 2 * (height / 2) + nearest s.window_height_ height y / 2 * (stride / 2) +
    ((cacheEntry s.window_width_ width (2 * (x / 2)) >>> 1 : Nat) : Int)

/-- The offset lies inside the span. -/
def InSpan (span : List Nat) (offset : Int) : Prop := 0 ≤ offset ∧ offset < (span.length : Int)

instance (span : List Nat) (offset : Int) : Decidable (InSpan span offset) := by
  unfold InSpan
  infer_instance

/-- Every offset that is read for a destination pixel lies inside the span. -/
def ReadsInSpan (s : QtPreview) (span : List Nat) (width height stride : Int) : Prop :=
  ∀ y < s.rows, ∀ x < s.cols,
    InSpan span (yOffset s width height stride y x) ∧
    InSpan span (uOffset s width height stride y x) ∧
    InSpan span (vOffset s width height stride y x)

instance (s : QtPreview) (span : List Nat) (width height stride : Int) :
    Decidable (ReadsInSpan s span width height stride) := by
  unfold ReadsInSpan
  infer_instance

/-- No `int` operation of line 87 overflows, at any position of the index vector. -/
def TableFits (window_width_ width : Int) : Prop :=
  ∀ i < window_width_.toNat, ∀ z ∈ line87 window_width_ width i, FitsInt z

instance (window_width_ width : Int) : Decidable (TableFits window_width_ width) := by
  unfold TableFits
  infer_instance

/-- Sizes small enough for `int`: the products of the window width and the frame width, of the
window height and the frame height, and of the stride and the frame height fit the type. -/
def SizesFit (s : QtPreview) (width height stride : Int) : Prop :=
  s.window_width_ * width ≤ 2147483647 ∧ s.window_height_ * height ≤ 2147483647 ∧
    stride * height ≤ 2147483647

instance (s : QtPreview) (width height stride : Int) :
    Decidable (SizesFit s width height stride) := by
  unfold SizesFit
  infer_instance

/-- No `int` operation of a call of `Show` overflows: those of line 87 at every position of the
index vector, those of lines 91 and 92, and those of lines 101 to 103 at every destination
row. -/
def NoOverflow (s : QtPreview) (width height stride : Int) : Prop :=
  TableFits s.window_width_ width ∧ (∀ z ∈ line91 height stride, FitsInt z) ∧
    ∀ y < s.window_height_.toNat, ∀ z ∈ line101 s.window_height_ height stride y, FitsInt z

instance (s : QtPreview) (width height stride : Int) :
    Decidable (NoOverflow s width height stride) := by
  unfold NoOverflow
  infer_instance

/-- A sink that can receive frames: the window dimensions are even and at least two, the raster
has three bytes for each pixel, and the index vector is the one computed, without overflow,
for the width seen last.  This holds after a construction with such dimensions and after every
`Show`. -/
def Ready (s : QtPreview) : Prop :=
  2 ≤ s.window_width_ ∧ 2 ≤ s.window_height_ ∧
  s.window_width_ % 2 = 0 ∧ s.window_height_ % 2 = 0 ∧
  s.pane_.image.length = 3 * s.cols * s.rows ∧
  (s.last_image_width_ = 0 ∨
    (s.x_locations_ = xTable s.window_width_ s.last_image_width_ ∧
      TableFits s.window_width_ s.last_image_width_))

instance (s : QtPreview) : Decidable (Ready s) := by
  unfold Ready
  infer_instance

/-- The stores of the bytes `bs` at the consecutive offsets `k, k + 1, ...`. -/
def storesFrom : Nat → List Nat → List Effect
  | _, [] => []
  | k, b :: bs => Effect.store k b :: storesFrom (k + 1) bs

/-- The offset of a store. -/
def storeOffset : Effect → Option Nat
  | Effect.store offset _ => some offset
  | _ => none

/-- The state of the write pointer once the bytes `w` have been stored, one after the other,
from the start of the raster `image`. -/
def written (image w : List Nat) : Dest :=
  { dest := w.length, image := w ++ image.drop w.length, stores := storesFrom 0 w }

/-- Storing the further bytes `bs` after `w`; there must be room for them. -/
def writeAll (image w bs : List Nat) : Option Dest :=
  if w.length + bs.length ≤ image.length then some (written image (w ++ bs)) else none

/-- Concatenation of `n` blocks `f i, f (i + step), ...`, if all of them exist. -/
def blocks (f : Nat → Option (List Nat)) (step : Nat) : Nat → Nat → Option (List Nat)
  | 0, _ => some []
  | n + 1, i => (f i).bind fun a => (blocks f step n (i + step)).map fun r => a ++ r

/-- The six bytes that `convertPair` stores for the columns `x` and `x + 1`. -/
def pairBytes (c : FpContract) (x_locations_ span : List Nat) (Y_row U_row V_row : Int)
    (x : Nat) : Option (List Nat) := do
  let y_off0 ← x_locations_[x]?
  let y_off1 ← x_locations_[x + 1]?
  let Y0 ← readByte span (Y_row + y_off0)
  let Y1 ← readByte span (Y_row + y_off1)
  let U0 ← readByte span (U_row + (y_off0 >>> 1 : Nat))
  let V0 ← readByte span (V_row + (y_off0 >>> 1 : Nat))
  some
    [toUInt8 (clamp (red c Y0 (V0 - 128)) 0 255),
     toUInt8 (clamp (green c Y0 (U0 - 128) (V0 - 128)) 0 255),
     toUInt8 (clamp (blue c Y0 (U0 - 128)) 0 255),
     toUInt8 (clamp (red c Y1 (V0 - 128)) 0 255),
     toUInt8 (clamp (green c Y1 (U0 - 128) (V0 - 128)) 0 255),
     toUInt8 (clamp (blue c Y1 (U0 - 128)) 0 255)]

/-- The bytes that `convertLine` stores for the destination row `y`. -/
def lineBytes (c : FpContract) (s : QtPreview) (span : List Nat) (height stride : Int)
    (y : Nat) : Option (List Nat) :=
  if s.window_height_ - 1 = 0 then none
  else if ¬ (∀ z ∈ line101 s.window_height_ height stride y, FitsInt z) then none
  else
    let row : Int :=
      ((y : Int) * (height - 1) + (s.window_height_ - 1).tdiv 2).tdiv (s.window_height_ - 1)
    blocks
      (pairBytes c s.x_locations_ span (0 + row * stride)
        (0 + stride * height + row.tdiv 2 * stride.tdiv 2)
        (0 + stride * height + row.tdiv 2 * stride.tdiv 2 + stride.tdiv 2 * height.tdiv 2))
      2 ((s.window_width_.toNat + 1) / 2) 0

/-- The bytes that `Show` stores for a whole frame. -/
def frameBytes (c : FpContract) (s : QtPreview) (span : List Nat) (height stride : Int) :
    Option (List Nat) :=
  if ¬ (∀ z ∈ line91 height stride, FitsInt z) then none
  else blocks (lineBytes c s span height stride) 1 s.window_height_.toNat 0

/-- The three samples documented for the destination pixel `(x, y)`. -/
def samples (s : QtPreview) (span : List Nat) (width height stride : Int) (y x : Nat) :
    Option (Nat × Nat × Nat) :=
  (readByte span (yOffset s width height stride y x)).bind fun Y =>
    (readByte span (uOffset s width height stride y x)).bind fun U =>
      (readByte span (vOffset s width height stride y x)).map fun V => (Y, U, V)

/-- The three bytes of a pixel with the samples `Y`, `U`, `V`: the results of the binary64
expressions, with the contractions `c`, clamped. -/
def pixel (c : FpContract) (Y U V : Nat) : List Nat :=
  [(clamp (red c Y ((V : Int) - 128)) 0 255).toNat,
   (clamp (green c Y ((U : Int) - 128) ((V : Int) - 128)) 0 255).toNat,
   (clamp (blue c Y ((U : Int) - 128)) 0 255).toNat]

/-- The three bytes of a pixel by the documented formula with decimal coefficients. -/
def decimalPixel (Y U V : Nat) : List Nat :=
  [(clamp (decimalRed Y ((V : Int) - 128)) 0 255).toNat,
   (clamp (decimalGreen Y ((U : Int) - 128) ((V : Int) - 128)) 0 255).toNat,
   (clamp (decimalBlue Y ((U : Int) - 128)) 0 255).toNat]

/-! ## Sequences of calls -/

/-- The arguments of one call of `Show`. -/
structure Frame where
  fd : Int
  span : List Nat
  width : Int
  height : Int
  stride : Int
deriving DecidableEq, Repr

/-- What can happen to a constructed sink: a call of one of its methods, or the close event
of its window. -/
inductive Event where
  /-- A call of `Show`. -/
  | deliver (f : Frame)
  /-- A call of `Reset`. -/
  | reset
  /-- A call of `SetInfoText`. -/
  | setInfoText (text : String)
  /-- A call of `MaxImageSize`. -/
  | maxImageSize
  /-- The close event of the main window. -/
  | close
deriving DecidableEq, Repr

/-- The sink after one event; `none` when a call of `Show` does not return. -/
def step (c : FpContract) (s : QtPreview) : Event → Option QtPreview
  | Event.deliver f =>
    (Show c s f.fd f.span f.width f.height f.stride).map
      fun r : QtPreview × List Effect => r.1
  | Event.reset => some (Reset s)
  | Event.setInfoText text => some (SetInfoText s text).1
  | Event.maxImageSize => some s
  | Event.close => some { s with main_window_ := (closeEvent s.main_window_).1 }

/-- The sink after a sequence of events. -/
def run (c : FpContract) : QtPreview → List Event → Option QtPreview
  | s, [] => some s
  | s, e :: es => (step c s e).bind fun s1 => run c s1 es

/-- The sink after a sequence of calls of `Show`. -/
def showAll (c : FpContract) : QtPreview → List Frame → Option QtPreview
  | s, [] => some s
  | s, f :: fs =>
    (Show c s f.fd f.span f.width f.height f.stride).bind
      fun r : QtPreview × List Effect => showAll c r.1 fs

/-- The sink as it is after construction with the same window dimensions: no sampling
locations, no width seen, a raster of zeros. -/
def fresh (s : QtPreview) : QtPreview :=
  { s with
    pane_ := { image := newImage s.window_width_ s.window_height_ }
    x_locations_ := []
    last_image_width_ := 0 }

/-- What a call of `Show` leaves behind that can be observed: the index vector, the raster
and the effects. -/
def observed (r : QtPreview × List Effect) : List Nat × List Nat × List Effect :=
  (r.1.x_locations_, r.1.pane_.image, r.2)

/-- The samples of a frame of neutral chroma: every luma sample (row below `height`, column
below `width`) is `c`, and every sample of the two chroma planes (row below `height / 2`,
column below `(width + 1) / 2`) is 128. -/
def GraySamples (span : List Nat) (width height stride : Int) (c : Nat) : Prop :=
  (∀ r col : Nat, (r : Int) < height → (col : Int) < width →
      readByte span ((r : Int) * stride + (col : Int)) = some c) ∧
    ∀ r col : Nat, (r : Int) < height / 2 → (col : Int) < (width + 1) / 2 →
      readByte span (stride * height + (r : Int) * (stride / 2) + (col : Int)) = some 128 ∧
      readByte span
        (stride * height + stride / 2 * (height / 2) + (r : Int) * (stride / 2) + (col : Int)) =
          some 128

/-! ## Sinks and frames used as examples -/

/-- The sink constructed from the options `preview_width = 2`, `preview_height = 2`. -/
def sink2x2 : QtPreview :=
  { main_window_ := { quit := false }
    pane_ := { image := List.replicate 12 0 }
    x_locations_ := []
    last_image_width_ := 0
    window_width_ := 2
    window_height_ := 2 }

/-- The sink constructed from the options `preview_width = 4`, `preview_height = 4`. -/
def sink4x4 : QtPreview :=
  { main_window_ := { quit := false }
    pane_ := { image := List.replicate 48 0 }
    x_locations_ := []
    last_image_width_ := 0
    window_width_ := 4
    window_height_ := 4 }

/-- A frame of width 2, height 2 and stride 2: four luma bytes `0`, then `U = 10`, then
`V = 143`. -/
def frame2x2 : List Nat := [0, 0, 0, 0, 10, 143]

/-- A frame of the given stride and of height 2 with all bytes zero: `2 * stride` luma bytes
and two chroma planes of `stride / 2` bytes each. -/
def blackFrame (stride : Nat) : List Nat := List.replicate (2 * stride + 2 * (stride / 2)) 0

/-- The sink constructed from the options `preview_width = 6`, `preview_height = 2`. -/
def sink6x2 : QtPreview :=
  { main_window_ := { quit := false }
    pane_ := { image := List.replicate 36 0 }
    x_locations_ := []
    last_image_width_ := 0
    window_width_ := 6
    window_height_ := 2 }

/-- The sink constructed from the options `preview_width = 512`, `preview_height = 384`. -/
def sink512x384 : QtPreview :=
  { main_window_ := { quit := false }
    pane_ := { image := newImage 512 384 }
    x_locations_ := []
    last_image_width_ := 0
    window_width_ := 512
    window_height_ := 384 }

/-- The sink constructed from the options `preview_width = 65538`, `preview_height = 2`. -/
def sink65538x2 : QtPreview :=
  { main_window_ := { quit := false }
    pane_ := { image := newImage 65538 2 }
    x_locations_ := []
    last_image_width_ := 0
    window_width_ := 65538
    window_height_ := 2 }

/-- The sink constructed from the options `preview_width = -2`, `preview_height = -2`. -/
def sinkNegative : QtPreview :=
  { main_window_ := { quit := false }
    pane_ := { image := [] }
    x_locations_ := []
    last_image_width_ := 0
    window_width_ := -2
    window_height_ := -2 }

/-- A frame of the given stride and height in which every luma byte is `c` and every chroma
byte is 128. -/
def grayFrame (stride height c : Nat) : List Nat :=
  List.replicate (stride * height) c ++ List.replicate (2 * (stride / 2 * (height / 2))) 128

/-! ## Machine arithmetic: lemmas -/

theorem toUInt8_clamp (v : Int) : toUInt8 (clamp v 0 255) = (clamp v 0 255).toNat := by
  unfold toUInt8 clamp
  split_ifs <;> omega

theorem clamp_range (v : Int) : 0 ≤ clamp v 0 255 ∧ clamp v 0 255 ≤ 255 := by
  unfold clamp
  split_ifs <;> omega

/-! ## The write pointer -/

theorem storesFrom_append (a b : List Nat) :
    ∀ k, storesFrom k (a ++ b) = storesFrom k a ++ storesFrom (k + a.length) b := by
  induction a with
  | nil => intro k; simp [storesFrom]
  | cons x a ih =>
    intro k
    simp [storesFrom, ih, Nat.add_assoc, Nat.add_comm 1]

theorem written_nil (image : List Nat) :
    written image [] = { dest := 0, image := image, stores := [] } := by
  simp [written, storesFrom]

theorem written_image_length (image w : List Nat) (h : w.length ≤ image.length) :
    (written image w).image.length = image.length := by
  simp [written]
  omega

theorem put_written (image w : List Nat) (v : Int) :
    (written image w).put v = writeAll image w [toUInt8 v] := by
  unfold Dest.put writeAll
  by_cases h : w.length < image.length
  · have h1 : (written image w).dest < (written image w).image.length := by
      simp [written]; omega
    have h2 : w.length + [toUInt8 v].length ≤ image.length := by simp; omega
    rw [if_pos h1, if_pos h2]
    simp only [written, Option.some.injEq, Dest.mk.injEq]
    refine ⟨by simp, ?_, ?_⟩
    · rw [List.set_append_right _ _ (le_refl _)]
      simp only [Nat.sub_self, List.length_append, List.length_singleton, List.append_assoc]
      congr 1
      rw [List.drop_eq_getElem_cons h]
      rfl
    · rw [storesFrom_append]
      simp [storesFrom]
  · have h1 : ¬ (written image w).dest < (written image w).image.length := by
      simp [written]; omega
    have h2 : ¬ w.length + [toUInt8 v].length ≤ image.length := by simp; omega
    rw [if_neg h1, if_neg h2]

theorem writeAll_bind (image w a : List Nat) (F : Dest → Option Dest) :
    (writeAll image w a).bind F =
      if w.length + a.length ≤ image.length then F (written image (w ++ a)) else none := by
  unfold writeAll
  split_ifs <;> rfl

theorem writeAll_writeAll (image w a b : List Nat) :
    (writeAll image w a).bind (fun _ => writeAll image (w ++ a) b) = writeAll image w (a ++ b) := by
  rw [writeAll_bind]
  unfold writeAll
  simp only [List.length_append, List.append_assoc]
  split_ifs <;> first | rfl | omega

theorem convertPair_written (c : FpContract) (xs span image w : List Nat)
    (Y_row U_row V_row : Int) (x : Nat) :
    convertPair c xs span Y_row U_row V_row x (written image w) =
      (pairBytes c xs span Y_row U_row V_row x).bind (writeAll image w) := by
  unfold convertPair pairBytes
  simp only [Option.bind_eq_bind, Option.pure_def, bind_pure_comp]
  cases xs[x]? with
  | none => rfl
  | some y_off0 =>
  simp only [Option.some_bind]
  cases xs[x + 1]? with
  | none => rfl
  | some y_off1 =>
  simp only [Option.some_bind]
  cases readByte span (Y_row + y_off0) with
  | none => rfl
  | some Y0 =>
  simp only [Option.some_bind]
  cases readByte span (Y_row + y_off1) with
  | none => rfl
  | some Y1 =>
  simp only [Option.some_bind]
  cases readByte span (U_row + (y_off0 >>> 1 : Nat)) with
  | none => rfl
  | some U0 =>
  simp only [Option.some_bind]
  cases readByte span (V_row + (y_off0 >>> 1 : Nat)) with
  | none => rfl
  | some V0 =>
  simp only [Option.some_bind, put_written, writeAll_bind]
  unfold writeAll
  simp only [List.length_append, List.length_singleton, List.length_cons, List.length_nil,
    List.append_assoc, List.singleton_append, List.cons_append, List.nil_append]
  split_ifs <;> first | rfl | omega

theorem forLoop_written (body : Nat → Dest → Option Dest) (f : Nat → Option (List Nat))
    (step : Nat) (image : List Nat)
    (hbody : ∀ i w, w.length ≤ image.length →
      body i (written image w) = (f i).bind (writeAll image w)) :
    ∀ n i w, w.length ≤ image.length → forLoop body step n i (written image w) =
      (blocks f step n i).bind (writeAll image w) := by
  intro n
  induction n with
  | zero =>
    intro i w hw
    simp [forLoop, blocks, writeAll, hw]
  | succ n ih =>
    intro i w hw
    simp only [forLoop, blocks, hbody i w hw]
    cases f i with
    | none => rfl
    | some a =>
      simp only [Option.some_bind, writeAll_bind]
      cases hb : blocks f step n (i + step) with
      | none =>
        split_ifs with h
        · rw [ih _ _ (by simpa using h), hb]; rfl
        · rfl
      | some r =>
        simp only [Option.map_some', Option.some_bind]
        split_ifs with h
        · rw [ih _ _ (by simpa using h), hb]
          simp only [Option.some_bind]
          unfold writeAll
          simp only [List.length_append, List.append_assoc]
          split_ifs <;> first | rfl | omega
        · unfold writeAll
          simp only [List.length_append]
          rw [if_neg (by omega)]

theorem convertLine_written (c : FpContract) (s : QtPreview) (span image : List Nat)
    (height stride : Int) (y : Nat) (w : List Nat) (hw : w.length ≤ image.length) :
    convertLine c s span height stride y (written image w) =
      (lineBytes c s span height stride y).bind (writeAll image w) := by
  unfold convertLine lineBytes
  split_ifs
  all_goals first
    | rfl
    | exact forLoop_written _ _ 2 image (fun i w _ => convertPair_written c _ _ _ _ _ _ _ i)
        _ _ _ hw

/-- What `Show` returns, in terms of the bytes computed for the frame. -/
theorem Show_eq (c : FpContract) (s : QtPreview) (fd : Int) (span : List Nat)
    (width height stride : Int) :
    Show c s fd span width height stride =
      (refreshLocations s width).bind fun s1 =>
        (frameBytes c s1 span height stride).bind fun bs =>
          if bs.length ≤ s1.pane_.image.length then
            some ({ s1 with pane_ := { image := bs ++ s1.pane_.image.drop bs.length } },
              storesFrom 0 bs ++ [Effect.update, Effect.done fd])
          else none := by
  unfold Show frameBytes
  cases refreshLocations s width with
  | none => rfl
  | some s1 =>
    simp only [Option.some_bind]
    split_ifs with hfit
    · rw [← written_nil,
        forLoop_written _ _ 1 _
          (fun i w hw => convertLine_written c s1 span _ height stride i w hw) _ _ _
          (Nat.zero_le _)]
      cases blocks (lineBytes c s1 span height stride) 1 s1.window_height_.toNat 0 with
      | none => rfl
      | some bs =>
        simp only [Option.some_bind, writeAll, List.length_nil, Nat.zero_add, List.nil_append]
        split_ifs
        · simp [written]
        · rfl
    · rfl

/-! ## Concatenated blocks -/

theorem blocks_spec (f : Nat → Option (List Nat)) (step L : Nat) :
    ∀ n i, (∀ k < n, ∃ a, f (i + k * step) = some a ∧ a.length = L) →
      ∃ bs, blocks f step n i = some bs ∧ bs.length = n * L ∧
        ∀ k < n, ∀ a, f (i + k * step) = some a → ∀ t < L, bs[k * L + t]? = a[t]? := by
  intro n
  induction n with
  | zero =>
    intro i _
    exact ⟨[], rfl, by simp, fun k hk => absurd hk (Nat.not_lt_zero k)⟩
  | succ n ih =>
    intro i h
    obtain ⟨a0, ha0, hl0⟩ := h 0 (Nat.succ_pos n)
    simp only [Nat.zero_mul, Nat.add_zero] at ha0
    have h1 : ∀ k < n, ∃ a, f (i + step + k * step) = some a ∧ a.length = L := by
      intro k hk
      have := h (k + 1) (Nat.succ_lt_succ hk)
      rwa [Nat.succ_mul, Nat.add_comm (k * step) step, ← Nat.add_assoc] at this
    obtain ⟨bs, hbs, hlen, hidx⟩ := ih (i + step) h1
    refine ⟨a0 ++ bs, by simp [blocks, ha0, hbs], ?_, ?_⟩
    · rw [List.length_append, hl0, hlen, Nat.succ_mul, Nat.add_comm]
    · intro k hk a ha t ht
      cases k with
      | zero =>
        simp only [Nat.zero_mul, Nat.add_zero] at ha
        rw [ha0] at ha
        cases ha
        rw [Nat.zero_mul, Nat.zero_add, List.getElem?_append_left (by omega)]
      | succ k =>
        rw [Nat.succ_mul, Nat.add_comm (k * step) step, ← Nat.add_assoc] at ha
        have := hidx k (Nat.lt_of_succ_lt_succ hk) a ha t ht
        rw [List.getElem?_append_right (by rw [hl0, Nat.succ_mul]; omega), ← this]
        congr 1
        rw [hl0, Nat.succ_mul]
        omega

/-! ## The index vector -/

theorem fillLocations_spec (ww width : Int) (hww : ww - 1 ≠ 0) :
    ∀ n i xs, i + n ≤ xs.length →
      (∀ j, i ≤ j → j < i + n → ∀ z ∈ line87 ww width j, FitsInt z) →
      ∃ ys, fillLocations ww width n i xs = some ys ∧ ys.length = xs.length ∧
        ∀ j, ys[j]? = if i ≤ j ∧ j < i + n then some (cacheEntry ww width j) else xs[j]? := by
  intro n
  induction n with
  | zero =>
    intro i xs _ _
    refine ⟨xs, rfl, rfl, fun j => ?_⟩
    rw [if_neg (by omega)]
  | succ n ih =>
    intro i xs h hfit
    have hi : i < xs.length := by omega
    obtain ⟨ys, hys, hlen, hidx⟩ := ih (i + 1) (xs.set i (cacheEntry ww width i))
      (by rw [List.length_set]; omega) (fun j h1 h2 => hfit j (by omega) (by omega))
    refine ⟨ys, ?_, by rw [hlen, List.length_set], fun j => ?_⟩
    · have hf : ¬ ¬ (∀ z ∈ line87 ww width i, FitsInt z) :=
        not_not.mpr (hfit i (le_refl i) (by omega))
      simp only [fillLocations, if_neg hww, if_neg hf, if_pos hi]
      exact hys
    · rw [hidx j, List.getElem?_set]
      by_cases hj : i = j
      · subst hj
        rw [if_neg (by omega), if_pos rfl, if_pos hi, if_pos (by omega)]
      · rw [if_neg hj]
        by_cases hj2 : i + 1 ≤ j ∧ j < i + 1 + n
        · rw [if_pos hj2, if_pos (by omega)]
        · rw [if_neg hj2, if_neg (by omega)]

/-- A loop of line 87 that returns has not overflowed. -/
theorem fillLocations_fits (ww width : Int) :
    ∀ n i xs ys, fillLocations ww width n i xs = some ys →
      ∀ j, i ≤ j → j < i + n → ∀ z ∈ line87 ww width j, FitsInt z := by
  intro n
  induction n with
  | zero =>
    intro i xs ys _ j h1 h2
    omega
  | succ n ih =>
    intro i xs ys h j h1 h2
    simp only [fillLocations] at h
    split_ifs at h with a b d
    have hrest := ih (i + 1) _ ys h
    by_cases hj : j = i
    · subst hj
      exact b
    · exact hrest j (by omega) (by omega)

theorem fillLocations_resize (ww width : Int) (hww : 2 ≤ ww) (hfit : TableFits ww width)
    (xs : List Nat) :
    fillLocations ww width ww.toNat 0 (resize xs ww.toNat) = some (xTable ww width) := by
  have hlen : (resize xs ww.toNat).length = ww.toNat := by
    simp [resize]; omega
  obtain ⟨ys, hys, hl, hidx⟩ := fillLocations_spec ww width (by omega) ww.toNat 0
    (resize xs ww.toNat) (by omega) (fun j _ h2 => hfit j (by omega))
  rw [hys]
  congr 1
  apply List.ext_getElem?
  intro j
  rw [hidx j]
  unfold xTable
  by_cases hj : j < ww.toNat
  · rw [if_pos (by omega), List.getElem?_map, List.getElem?_range hj]
    rfl
  · rw [if_neg (by omega), List.getElem?_eq_none (by omega),
      List.getElem?_eq_none (by simp; omega)]

theorem xTable_length (ww width : Int) : (xTable ww width).length = ww.toNat := by
  simp [xTable]

theorem xTable_getElem? (ww width : Int) (i : Nat) (hi : i < ww.toNat) :
    (xTable ww width)[i]? = some (cacheEntry ww width i) := by
  unfold xTable
  rw [List.getElem?_map, List.getElem?_range hi]
  rfl

/-- The index vector after the first part of `Show`, for a sink that is ready and a frame of
positive width for which line 87 does not overflow. -/
theorem refreshLocations_ready (s : QtPreview) (hs : Ready s) (width : Int) (hw : 0 < width)
    (hfit : TableFits s.window_width_ width) :
    refreshLocations s width =
      some { s with last_image_width_ := width, x_locations_ := xTable s.window_width_ width } := by
  obtain ⟨h1, _, _, _, _, h6⟩ := hs
  unfold refreshLocations
  by_cases hne : s.last_image_width_ = width
  · rw [if_neg (by simpa using hne)]
    rcases h6 with h0 | ⟨hx, _⟩
    · omega
    · congr 1
      cases s
      simp only at hne hx
      subst hne
      simp [hx]
  · rw [if_pos hne, if_neg (by omega), fillLocations_resize _ _ h1 hfit]
    rfl

/-- When line 87 overflows for a width that is not the one seen last, the first part of
`Show` is undefined. -/
theorem refreshLocations_overflow (s : QtPreview) (width : Int)
    (hne : s.last_image_width_ ≠ width) (hfit : ¬ TableFits s.window_width_ width) :
    refreshLocations s width = none := by
  unfold refreshLocations
  rw [if_pos hne]
  split_ifs
  · rfl
  · cases h : fillLocations s.window_width_ width s.window_width_.toNat 0
        (resize s.x_locations_ s.window_width_.toNat) with
    | none => rfl
    | some ys =>
      exact absurd (fun j hj => fillLocations_fits _ _ _ _ _ _ h j (Nat.zero_le j) (by omega))
        hfit

/-- For a ready sink, the width of a frame for which the first part of `Show` returns does
not make line 87 overflow. -/
theorem refreshLocations_fits (s s1 : QtPreview) (hs : Ready s) (width : Int) (hw : 0 < width)
    (h : refreshLocations s width = some s1) : TableFits s.window_width_ width := by
  by_contra hfit
  by_cases hne : s.last_image_width_ = width
  · rcases hs.2.2.2.2.2 with h0 | ⟨_, hx⟩
    · omega
    · rw [hne] at hx
      exact hfit hx
  · rw [refreshLocations_overflow s width hne hfit] at h
    cases h

/-! ## Sampling arithmetic -/

theorem tdiv_two (z : Int) (hz : 0 ≤ z) : z.tdiv 2 = z / 2 :=
  Int.tdiv_eq_ediv hz (by decide)

theorem nearest_nonneg (dst src : Int) (i : Nat) (hd : 2 ≤ dst) (hs : 0 < src) :
    0 ≤ nearest dst src i := by
  unfold nearest
  apply Int.ediv_nonneg
  · have h1 : 0 ≤ (i : Int) * (src - 1) := mul_nonneg (Int.ofNat_nonneg i) (by omega)
    have h2 : 0 ≤ (dst - 1) / 2 := Int.ediv_nonneg (by omega) (by decide)
    omega
  · omega

theorem tdiv_nearest (dst src : Int) (i : Nat) (hd : 2 ≤ dst) (hs : 0 < src) :
    ((i : Int) * (src - 1) + (dst - 1).tdiv 2).tdiv (dst - 1) = nearest dst src i := by
  unfold nearest
  rw [tdiv_two _ (by omega)]
  apply Int.tdiv_eq_ediv
  · have h1 : 0 ≤ (i : Int) * (src - 1) := mul_nonneg (Int.ofNat_nonneg i) (by omega)
    have h2 : 0 ≤ (dst - 1) / 2 := Int.ediv_nonneg (by omega) (by decide)
    omega
  · omega

theorem nearest_le (dst src : Int) (i : Nat) (hd : 2 ≤ dst) (hs : 0 < src)
    (hi : (i : Int) < dst) : nearest dst src i ≤ src - 1 := by
  unfold nearest
  have h2 : (dst - 1) / 2 < dst - 1 := Int.ediv_lt_of_lt_mul (by decide) (by omega)
  have h1 : (i : Int) * (src - 1) ≤ (dst - 1) * (src - 1) :=
    mul_le_mul_of_nonneg_right (by omega) (by omega)
  have h3 : (i : Int) * (src - 1) + (dst - 1) / 2 < src * (dst - 1) := by
    have : src * (dst - 1) = (dst - 1) * (src - 1) + (dst - 1) := by ring
    omega
  have := Int.ediv_lt_of_lt_mul (by omega : (0 : Int) < dst - 1) h3
  omega

theorem nearest_mono (dst src : Int) (i j : Nat) (hd : 2 ≤ dst) (hs : 0 < src) (hij : i ≤ j) :
    nearest dst src i ≤ nearest dst src j := by
  unfold nearest
  apply Int.ediv_le_ediv (by omega)
  have : (i : Int) * (src - 1) ≤ (j : Int) * (src - 1) :=
    mul_le_mul_of_nonneg_right (by exact_mod_cast hij) (by omega)
  omega

theorem nearest_zero (dst src : Int) (hd : 2 ≤ dst) : nearest dst src 0 = 0 := by
  unfold nearest
  have h2 : (dst - 1) / 2 < dst - 1 := Int.ediv_lt_of_lt_mul (by decide) (by omega)
  have h0 : 0 ≤ (dst - 1) / 2 := Int.ediv_nonneg (by omega) (by decide)
  simp only [Nat.cast_zero, zero_mul, zero_add]
  exact Int.ediv_eq_zero_of_lt h0 h2

theorem nearest_last (dst src : Int) (i : Nat) (hd : 2 ≤ dst) (hi : (i : Int) = dst - 1) :
    nearest dst src i = src - 1 := by
  unfold nearest
  have h2 : (dst - 1) / 2 < dst - 1 := Int.ediv_lt_of_lt_mul (by decide) (by omega)
  have h0 : 0 ≤ (dst - 1) / 2 := Int.ediv_nonneg (by omega) (by decide)
  rw [hi, Int.add_comm, Int.add_mul_ediv_left _ _ (by omega : dst - 1 ≠ 0),
    Int.ediv_eq_zero_of_lt h0 h2]
  omega

theorem cacheEntry_eq (ww width : Int) (i : Nat) (hd : 2 ≤ ww) (hs : 0 < width) :
    cacheEntry ww width i = toUInt16 (nearest ww width i) := by
  unfold cacheEntry
  rw [tdiv_nearest _ _ _ hd hs]

theorem toUInt16_le (z : Int) (hz : 0 ≤ z) : (toUInt16 z : Int) ≤ z := by
  unfold toUInt16
  omega

theorem toUInt16_small (z : Int) (hz : 0 ≤ z) (h : z < 65536) : (toUInt16 z : Int) = z := by
  unfold toUInt16
  rw [Int.emod_eq_of_lt hz h]
  omega

theorem readByte_inSpan (span : List Nat) (offset : Int) (h : InSpan span offset) :
    ∃ b, readByte span offset = some b := by
  obtain ⟨h0, h1⟩ := h
  have hlt : offset.toNat < span.length := by omega
  exact ⟨span[offset.toNat], by simp [readByte, h0, List.getElem?_eq_getElem hlt]⟩

/-! ## Sizes that fit the type `int` -/

theorem sizesFit_table (ww width : Int) (hd : 2 ≤ ww) (hw : 0 < width)
    (hfit : ww * width ≤ 2147483647) : TableFits ww width := by
  intro i hi z hz
  have hi2 : (i : Int) ≤ ww - 1 := by omega
  have p1 : (i : Int) * (width - 1) ≤ (ww - 1) * (width - 1) :=
    mul_le_mul_of_nonneg_right hi2 (by omega)
  have p0 : 0 ≤ (i : Int) * (width - 1) := mul_nonneg (by omega) (by omega)
  have e : (ww - 1) * (width - 1) = ww * width - ww - width + 1 := by ring
  have q1 : 2 * width ≤ ww * width := mul_le_mul_of_nonneg_right hd (by omega)
  have q2 : ww * 1 ≤ ww * width := mul_le_mul_of_nonneg_left (by omega) (by omega)
  have hhalf := tdiv_two (ww - 1) (by omega)
  have hq := tdiv_nearest ww width i hd hw
  have n0 := nearest_nonneg ww width i hd hw
  have n1 := nearest_le ww width i hd hw (by omega)
  unfold FitsInt
  simp only [line87, List.mem_cons, List.mem_singleton, List.not_mem_nil, or_false] at hz
  rcases hz with rfl | rfl | rfl | rfl | rfl | rfl
  · omega
  · omega
  · omega
  · omega
  · omega
  · rw [hq]; omega

theorem sizesFit_line (wh height stride : Int) (y : Nat) (hd : 2 ≤ wh) (hh : 0 < height)
    (hst : 0 ≤ stride) (hf1 : wh * height ≤ 2147483647) (hf2 : stride * height ≤ 2147483647)
    (hy : (y : Int) < wh) : ∀ z ∈ line101 wh height stride y, FitsInt z := by
  intro z hz
  have p1 : (y : Int) * (height - 1) ≤ (wh - 1) * (height - 1) :=
    mul_le_mul_of_nonneg_right (by omega) (by omega)
  have p0 : 0 ≤ (y : Int) * (height - 1) := mul_nonneg (by omega) (by omega)
  have e : (wh - 1) * (height - 1) = wh * height - wh - height + 1 := by ring
  have q1 : 2 * height ≤ wh * height := mul_le_mul_of_nonneg_right hd (by omega)
  have q2 : wh * 1 ≤ wh * height := mul_le_mul_of_nonneg_left (by omega) (by omega)
  have hhalf := tdiv_two (wh - 1) (by omega)
  have hq := tdiv_nearest wh height y hd hh
  have n0 := nearest_nonneg wh height y hd hh
  have n1 := nearest_le wh height y hd hh hy
  have r0 : 0 ≤ nearest wh height y * stride := mul_nonneg n0 hst
  have r1 : nearest wh height y * stride ≤ (height - 1) * stride :=
    mul_le_mul_of_nonneg_right n1 hst
  have e2 : (height - 1) * stride = stride * height - stride := by ring
  have t0 : 0 ≤ nearest wh height y / 2 := Int.ediv_nonneg n0 (by decide)
  have t1 : 0 ≤ stride / 2 := Int.ediv_nonneg hst (by decide)
  have u0 : 0 ≤ nearest wh height y / 2 * (stride / 2) := mul_nonneg t0 t1
  have u1 : nearest wh height y / 2 * (stride / 2) ≤ nearest wh height y * stride :=
    mul_le_mul (by omega) (by omega) t1 n0
  unfold FitsInt
  simp only [line101, List.mem_cons, List.mem_singleton, List.not_mem_nil, or_false] at hz
  rcases hz with rfl | rfl | rfl | rfl | rfl | rfl | rfl | rfl
  · omega
  · omega
  · omega
  · omega
  · omega
  · rw [hq]; omega
  · rw [hq]; omega
  · rw [hq, tdiv_two _ n0, tdiv_two _ hst]; omega

theorem sizesFit_planes (height stride : Int) (hh : 0 < height) (hst : 0 ≤ stride)
    (hh2 : height ≤ 2147483647) (hf2 : stride * height ≤ 2147483647) :
    ∀ z ∈ line91 height stride, FitsInt z := by
  intro z hz
  have p0 : 0 ≤ stride * height := mul_nonneg hst (by omega)
  have q2 : stride * 1 ≤ stride * height := mul_le_mul_of_nonneg_left (by omega) hst
  have t0 : 0 ≤ stride / 2 := Int.ediv_nonneg hst (by decide)
  have t1 : 0 ≤ height / 2 := Int.ediv_nonneg (by omega) (by decide)
  have u0 : 0 ≤ stride / 2 * (height / 2) := mul_nonneg t0 t1
  have u1 : stride / 2 * (height / 2) ≤ stride * height :=
    mul_le_mul (by omega) (by omega) t1 hst
  unfold FitsInt
  simp only [line91, List.mem_cons, List.mem_singleton, List.not_mem_nil, or_false] at hz
  rcases hz with rfl | rfl | rfl | rfl
  · omega
  · rw [tdiv_two _ hst]; omega
  · rw [tdiv_two _ (by omega)]; omega
  · rw [tdiv_two _ hst, tdiv_two _ (by omega)]; omega

/-- Sizes that fit leave no overflow in a call of `Show`. -/
theorem sizesFit_noOverflow (s : QtPreview) (width height stride : Int)
    (hww : 2 ≤ s.window_width_) (hwh : 2 ≤ s.window_height_) (hw : 0 < width) (hh : 0 < height)
    (hst : 0 ≤ stride) (hfit : SizesFit s width height stride) :
    NoOverflow s width height stride := by
  obtain ⟨f1, f2, f3⟩ := hfit
  have q1 : 2 * height ≤ s.window_height_ * height :=
    mul_le_mul_of_nonneg_right hwh (by omega)
  refine ⟨sizesFit_table _ _ hww hw f1, sizesFit_planes height stride hh hst (by omega) f3, ?_⟩
  intro y hy
  exact sizesFit_line _ height stride y hwh hh hst f2 f3 (by omega)

/-! ## The bytes of a frame -/

theorem pixel_length (c : FpContract) (Y U V : Nat) : (pixel c Y U V).length = 3 := rfl

theorem uOffset_pair (s : QtPreview) (width height stride : Int) (y p : Nat) :
    uOffset s width height stride y (2 * p + 1) = uOffset s width height stride y (2 * p) := by
  unfold uOffset
  have h1 : (2 * p + 1) / 2 = p := by omega
  have h2 : 2 * p / 2 = p := by omega
  rw [h1, h2]

theorem vOffset_pair (s : QtPreview) (width height stride : Int) (y p : Nat) :
    vOffset s width height stride y (2 * p + 1) = vOffset s width height stride y (2 * p) := by
  unfold vOffset
  have h1 : (2 * p + 1) / 2 = p := by omega
  have h2 : 2 * p / 2 = p := by omega
  rw [h1, h2]

theorem pairBytes_ready (c : FpContract) (s : QtPreview) (span : List Nat)
    (width height stride : Int) (hwh : 2 ≤ s.window_height_) (hh : 0 < height)
    (hst : 0 ≤ stride) (hr : ReadsInSpan s span width height stride) (y p : Nat)
    (hy : y < s.rows) (hp : 2 * p + 1 < s.cols) :
    ∃ Y0 Y1 U V, samples s span width height stride y (2 * p) = some (Y0, U, V) ∧
      samples s span width height stride y (2 * p + 1) = some (Y1, U, V) ∧
      pairBytes c (xTable s.window_width_ width) span
        (0 + ((y : Int) * (height - 1) + (s.window_height_ - 1).tdiv 2).tdiv
          (s.window_height_ - 1) * stride)
        (0 + stride * height + (((y : Int) * (height - 1) + (s.window_height_ - 1).tdiv 2).tdiv
          (s.window_height_ - 1)).tdiv 2 * stride.tdiv 2)
        (0 + stride * height + (((y : Int) * (height - 1) + (s.window_height_ - 1).tdiv 2).tdiv
          (s.window_height_ - 1)).tdiv 2 * stride.tdiv 2 + stride.tdiv 2 * height.tdiv 2)
        (2 * p) = some (pixel c Y0 U V ++ pixel c Y1 U V) := by
  rw [tdiv_nearest _ _ _ hwh hh, tdiv_two _ (nearest_nonneg _ _ _ hwh hh), tdiv_two _ hst,
    tdiv_two _ (le_of_lt hh)]
  obtain ⟨a0, b0, c0⟩ := hr y hy (2 * p) (by omega)
  obtain ⟨a1, _, _⟩ := hr y hy (2 * p + 1) hp
  obtain ⟨Y0, hY0⟩ := readByte_inSpan _ _ a0
  obtain ⟨Y1, hY1⟩ := readByte_inSpan _ _ a1
  obtain ⟨U, hU⟩ := readByte_inSpan _ _ b0
  obtain ⟨V, hV⟩ := readByte_inSpan _ _ c0
  refine ⟨Y0, Y1, U, V, ?_, ?_, ?_⟩
  · simp [samples, hY0, hU, hV]
  · simp [samples, hY1, uOffset_pair, vOffset_pair, hU, hV]
  · have hx0 := xTable_getElem? s.window_width_ width (2 * p) (by unfold QtPreview.cols at hp; omega)
    have hx1 := xTable_getElem? s.window_width_ width (2 * p + 1) hp
    have e0 : 0 + nearest s.window_height_ height y * stride +
        (cacheEntry s.window_width_ width (2 * p) : Int) = yOffset s width height stride y (2 * p) := by
      unfold yOffset; ring
    have e1 : 0 + nearest s.window_height_ height y * stride +
        (cacheEntry s.window_width_ width (2 * p + 1) : Int) =
          yOffset s width height stride y (2 * p + 1) := by
      unfold yOffset; ring
    have hpp : 2 * (2 * p / 2) = 2 * p := by omega
    have e2 : (0 : Int) + stride * height +
        nearest s.window_height_ height y / (2 : Int) * (stride / (2 : Int)) +
        ((cacheEntry s.window_width_ width (2 * p) >>> 1 : Nat) : Int) =
          uOffset s width height stride y (2 * p) := by
      unfold uOffset; rw [hpp]; ring_nf
    have e3 : (0 : Int) + stride * height +
        nearest s.window_height_ height y / (2 : Int) * (stride / (2 : Int)) +
        stride / (2 : Int) * (height / (2 : Int)) +
        ((cacheEntry s.window_width_ width (2 * p) >>> 1 : Nat) : Int) =
          vOffset s width height stride y (2 * p) := by
      unfold vOffset; rw [hpp]; ring_nf
    unfold pairBytes
    simp only [Option.bind_eq_bind, hx0, hx1, Option.some_bind, e0, e1, e2, e3, hY0, hY1, hU, hV,
      toUInt8_clamp]
    rfl

theorem lineBytes_ready (c : FpContract) (s : QtPreview) (span : List Nat)
    (width height stride : Int) (hwh : 2 ≤ s.window_height_)
    (heven : s.window_width_ % 2 = 0) (hxs : s.x_locations_ = xTable s.window_width_ width)
    (hh : 0 < height) (hst : 0 ≤ stride) (hr : ReadsInSpan s span width height stride)
    (y : Nat) (hy : y < s.rows)
    (hf : ∀ z ∈ line101 s.window_height_ height stride y, FitsInt z) :
    ∃ lb, lineBytes c s span height stride y = some lb ∧ lb.length = 3 * s.cols ∧
      ∀ x < s.cols, ∃ Y U V, samples s span width height stride y x = some (Y, U, V) ∧
        ∀ k < 3, lb[3 * x + k]? = (pixel c Y U V)[k]? := by
  have hc : s.cols % 2 = 0 := by unfold QtPreview.cols; omega
  have hpairs : ∀ p < (s.window_width_.toNat + 1) / 2, 2 * p + 1 < s.cols := by
    intro p hp
    unfold QtPreview.cols at hc ⊢
    omega
  obtain ⟨lb, hlb, hlen, hidx⟩ := blocks_spec
    (pairBytes c s.x_locations_ span
      (0 + ((y : Int) * (height - 1) + (s.window_height_ - 1).tdiv 2).tdiv
          (s.window_height_ - 1) * stride)
      (0 + stride * height + (((y : Int) * (height - 1) + (s.window_height_ - 1).tdiv 2).tdiv
          (s.window_height_ - 1)).tdiv 2 * stride.tdiv 2)
      (0 + stride * height + (((y : Int) * (height - 1) + (s.window_height_ - 1).tdiv 2).tdiv
          (s.window_height_ - 1)).tdiv 2 * stride.tdiv 2 + stride.tdiv 2 * height.tdiv 2))
    2 6 ((s.window_width_.toNat + 1) / 2) 0 (by
      intro p hp
      obtain ⟨Y0, Y1, U, V, _, _, h⟩ :=
        pairBytes_ready c s span width height stride hwh hh hst hr y p hy (hpairs p hp)
      rw [hxs, Nat.zero_add, Nat.mul_comm]
      exact ⟨_, h, rfl⟩)
  refine ⟨lb, ?_, ?_, ?_⟩
  · unfold lineBytes
    rw [if_neg (by omega), if_neg (not_not.mpr hf)]
    exact hlb
  · rw [hlen]
    unfold QtPreview.cols at hc ⊢
    omega
  · intro x hx
    have hp : x / 2 < (s.window_width_.toNat + 1) / 2 := by
      unfold QtPreview.cols at hc hx
      omega
    obtain ⟨Y0, Y1, U, V, h0, h1, h⟩ :=
      pairBytes_ready c s span width height stride hwh hh hst hr y (x / 2) hy
        (hpairs _ hp)
    rw [← hxs] at h
    have hidx2 := hidx (x / 2) hp _ (by rw [Nat.zero_add, Nat.mul_comm]; exact h)
    rcases Nat.mod_two_eq_zero_or_one x with hx0 | hx1
    · have hxe : 2 * (x / 2) = x := by omega
      rw [hxe] at h0
      refine ⟨Y0, U, V, h0, fun k hk => ?_⟩
      have e : 3 * x + k = x / 2 * 6 + k := by omega
      rw [e, hidx2 k (by omega), List.getElem?_append_left (by rw [pixel_length]; exact hk)]
    · have hxe : 2 * (x / 2) + 1 = x := by omega
      rw [hxe] at h1
      refine ⟨Y1, U, V, h1, fun k hk => ?_⟩
      have e : 3 * x + k = x / 2 * 6 + (3 + k) := by omega
      rw [e, hidx2 (3 + k) (by omega),
        List.getElem?_append_right (by rw [pixel_length]; omega), pixel_length]
      congr 1
      omega

theorem frameBytes_ready (c : FpContract) (s : QtPreview) (span : List Nat)
    (width height stride : Int) (hwh : 2 ≤ s.window_height_)
    (heven : s.window_width_ % 2 = 0) (hxs : s.x_locations_ = xTable s.window_width_ width)
    (hh : 0 < height) (hst : 0 ≤ stride) (hr : ReadsInSpan s span width height stride)
    (hf91 : ∀ z ∈ line91 height stride, FitsInt z)
    (hf101 : ∀ y < s.window_height_.toNat,
      ∀ z ∈ line101 s.window_height_ height stride y, FitsInt z) :
    ∃ bs, frameBytes c s span height stride = some bs ∧ bs.length = 3 * s.cols * s.rows ∧
      ∀ y < s.rows, ∀ x < s.cols, ∃ Y U V, samples s span width height stride y x = some (Y, U, V) ∧
        ∀ k < 3, bs[3 * (y * s.cols + x) + k]? = (pixel c Y U V)[k]? := by
  obtain ⟨bs, hbs, hlen, hidx⟩ := blocks_spec (lineBytes c s span height stride) 1 (3 * s.cols)
    s.window_height_.toNat 0 (by
      intro y hy
      obtain ⟨lb, h, hl, _⟩ :=
        lineBytes_ready c s span width height stride hwh heven hxs hh hst hr y hy
        (hf101 y hy)
      rw [Nat.zero_add, Nat.mul_one]
      exact ⟨lb, h, hl⟩)
  refine ⟨bs, ?_, ?_, ?_⟩
  · unfold frameBytes
    rw [if_neg (not_not.mpr hf91)]
    exact hbs
  · rw [hlen]
    unfold QtPreview.rows
    ring
  · intro y hy x hx
    obtain ⟨lb, h, _, hpix⟩ :=
      lineBytes_ready c s span width height stride hwh heven hxs hh hst hr y hy
        (hf101 y hy)
    obtain ⟨Y, U, V, hs, hk⟩ := hpix x hx
    refine ⟨Y, U, V, hs, fun k hk3 => ?_⟩
    have e : 3 * (y * s.cols + x) + k = y * (3 * s.cols) + (3 * x + k) := by ring
    rw [e, hidx y hy lb (by rw [Nat.zero_add, Nat.mul_one]; exact h) (3 * x + k) (by omega),
      hk k hk3]

/-! ## A call of `Show` on a ready sink -/

theorem storesFrom_offsets (bs : List Nat) :
    ∀ k, (storesFrom k bs).filterMap storeOffset = List.range' k bs.length := by
  induction bs with
  | nil => intro k; rfl
  | cons b bs ih =>
    intro k
    simp [storesFrom, storeOffset, ih, List.range']

theorem storesFrom_isStore (bs : List Nat) :
    ∀ k, ∀ e ∈ storesFrom k bs, ∃ o b, e = Effect.store o b := by
  induction bs with
  | nil => intro k e he; simp [storesFrom] at he
  | cons b bs ih =>
    intro k e he
    simp only [storesFrom, List.mem_cons] at he
    rcases he with rfl | he
    · exact ⟨k, b, rfl⟩
    · exact ih _ e he

theorem storesFrom_length (bs : List Nat) : ∀ k, (storesFrom k bs).length = bs.length := by
  induction bs with
  | nil => intro k; rfl
  | cons b bs ih => intro k; simp [storesFrom, ih]

/-- The result of `Show` for a ready sink, a call without overflow, and a frame whose documented
samples all lie in the span: the index vector is the one of the frame width, the raster holds
the bytes `bs`, and the effects are the stores of `bs`, the repaint request and the release of
`fd`. -/
theorem Show_ready (c : FpContract) (s : QtPreview) (hs : Ready s) (fd : Int)
    (span : List Nat) (width height stride : Int) (hw : 0 < width) (hh : 0 < height)
    (hst : 0 ≤ stride) (hfit : NoOverflow s width height stride)
    (hr : ReadsInSpan s span width height stride) :
    ∃ bs, Show c s fd span width height stride =
        some ({ s with
                last_image_width_ := width
                x_locations_ := xTable s.window_width_ width
                pane_ := { image := bs } },
          storesFrom 0 bs ++ [Effect.update, Effect.done fd]) ∧
      bs.length = 3 * s.cols * s.rows ∧
      ∀ y < s.rows, ∀ x < s.cols, ∃ Y U V,
        samples s span width height stride y x = some (Y, U, V) ∧
        ∀ k < 3, bs[3 * (y * s.cols + x) + k]? = (pixel c Y U V)[k]? := by
  have hs1 := hs
  obtain ⟨_, h2, h3, _, h5, _⟩ := hs1
  obtain ⟨bs, hbs, hlen, hpix⟩ := frameBytes_ready c
    { s with last_image_width_ := width, x_locations_ := xTable s.window_width_ width }
    span width height stride h2 h3 rfl hh hst hr hfit.2.1 hfit.2.2
  refine ⟨bs, ?_, hlen, hpix⟩
  rw [Show_eq, refreshLocations_ready s hs width hw hfit.1]
  simp only [Option.some_bind, hbs]
  have hl : bs.length = s.pane_.image.length := by rw [h5]; exact hlen
  rw [if_pos (le_of_eq hl), hl, List.drop_length, List.append_nil]

/-- For a frame width of at most `65536` the stored entry is the value of the documented
formula: the conversion to `uint16_t` does not change it. -/
theorem cacheEntry_exact (ww width : Int) (i : Nat) (hd : 2 ≤ ww) (hs : 0 < width)
    (hb : width ≤ 65536) (hi : (i : Int) < ww) :
    (cacheEntry ww width i : Int) = nearest ww width i := by
  rw [cacheEntry_eq _ _ _ hd hs]
  have h1 := nearest_le ww width i hd hs hi
  exact toUInt16_small _ (nearest_nonneg ww width i hd hs) (by omega)

/-! ## Construction -/

theorem tmod_two_ne_zero (z : Int) : z.tmod 2 ≠ 0 ↔ z % 2 = 1 := by
  rw [Int.tmod_def]
  rcases Int.emod_two_eq_zero_or_one z with h | h
  · have h0 : 0 ≤ z ∨ z < 0 := by omega
    rcases h0 with h0 | h0
    · rw [Int.tdiv_eq_ediv h0 (by decide)]; omega
    · have hn : (-z).tdiv 2 = (-z) / 2 := Int.tdiv_eq_ediv (by omega) (by decide)
      rw [Int.neg_tdiv] at hn
      omega
  · have h0 : 0 ≤ z ∨ z < 0 := by omega
    rcases h0 with h0 | h0
    · rw [Int.tdiv_eq_ediv h0 (by decide)]; omega
    · have hn : (-z).tdiv 2 = (-z) / 2 := Int.tdiv_eq_ediv (by omega) (by decide)
      rw [Int.neg_tdiv] at hn
      omega

theorem make_qt_preview_even (o : Options) (hw : o.preview_width % 2 = 0)
    (hh : o.preview_height % 2 = 0) :
    make_qt_preview o =
      (Except.ok
        { main_window_ := { quit := false }
          pane_ :=
            { image := newImage
                (if o.preview_width = 0 ∨ o.preview_height = 0 then (512, 384)
                  else (o.preview_width, o.preview_height)).1
                (if o.preview_width = 0 ∨ o.preview_height = 0 then (512, 384)
                  else (o.preview_width, o.preview_height)).2 }
          x_locations_ := []
          last_image_width_ := 0
          window_width_ :=
            (if o.preview_width = 0 ∨ o.preview_height = 0 then (512, 384)
              else (o.preview_width, o.preview_height)).1
          window_height_ :=
            (if o.preview_width = 0 ∨ o.preview_height = 0 then (512, 384)
              else (o.preview_width, o.preview_height)).2 },
       [Effect.threadStart, Effect.move (o.preview_x + 2) (o.preview_y + 28),
        Effect.showWindow] ++
        (if o.verbose then [Effect.print "Made Qt preview"] else [])) := by
  unfold make_qt_preview
  have h : ¬ (o.preview_width.tmod 2 ≠ 0 ∨ o.preview_height.tmod 2 ≠ 0) := by
    rw [tmod_two_ne_zero, tmod_two_ne_zero]
    omega
  simp only [if_neg h]

theorem make_qt_preview_odd (o : Options)
    (h : o.preview_width % 2 = 1 ∨ o.preview_height % 2 = 1) :
    make_qt_preview o = (Except.error "QtPreview: expect even dimensions", []) := by
  unfold make_qt_preview
  have h1 : o.preview_width.tmod 2 ≠ 0 ∨ o.preview_height.tmod 2 ≠ 0 := by
    rw [tmod_two_ne_zero, tmod_two_ne_zero]
    exact h
  simp only [if_pos h1]

/-- A sink constructed with even dimensions of at least two is ready. -/
theorem make_qt_preview_ready (o : Options) (hw : o.preview_width % 2 = 0)
    (hh : o.preview_height % 2 = 0) (hw2 : 2 ≤ o.preview_width) (hh2 : 2 ≤ o.preview_height) :
    ∃ s, (make_qt_preview o).1 = Except.ok s ∧ Ready s ∧
      s.window_width_ = o.preview_width ∧ s.window_height_ = o.preview_height := by
  rw [make_qt_preview_even o hw hh]
  have hz : ¬ (o.preview_width = 0 ∨ o.preview_height = 0) := by omega
  refine ⟨_, rfl, ?_, ?_, ?_⟩
  · simp only [if_neg hz]
    refine ⟨hw2, hh2, hw, hh, ?_, Or.inl rfl⟩
    simp [newImage, QtPreview.cols, QtPreview.rows]
  · simp only [if_neg hz]
  · simp only [if_neg hz]

/-- A call of `Show` leaves the sink ready. -/
theorem Show_preserves_ready (c : FpContract) (s : QtPreview) (hs : Ready s) (fd : Int)
    (span : List Nat) (width height stride : Int) (hw : 0 < width) (hh : 0 < height)
    (hst : 0 ≤ stride) (hfit : NoOverflow s width height stride)
    (hr : ReadsInSpan s span width height stride) :
    ∃ s' eff, Show c s fd span width height stride = some (s', eff) ∧ Ready s' ∧
      s'.window_width_ = s.window_width_ ∧ s'.window_height_ = s.window_height_ := by
  obtain ⟨bs, h, hlen, _⟩ := Show_ready c s hs fd span width height stride hw hh hst hfit hr
  have ht := hfit.1
  obtain ⟨h1, h2, h3, h4, _, _⟩ := hs
  exact ⟨_, _, h, ⟨h1, h2, h3, h4, hlen, Or.inr ⟨rfl, ht⟩⟩, rfl, rfl⟩

/-! ## The claims about construction -/

/-- Claim C4.  Construction fails exactly when `preview_width` or `preview_height` is odd
(negative values included), and then with the error "QtPreview: expect even dimensions" and
without any effect: the rendering thread is not started and no sink exists.  Otherwise a sink
is produced and the rendering thread has been started. -/
theorem make_qt_preview_fails_iff_odd (o : Options) :
    ((o.preview_width % 2 = 1 ∨ o.preview_height % 2 = 1) ∧
        make_qt_preview o = (Except.error "QtPreview: expect even dimensions", [])) ∨
      (o.preview_width % 2 = 0 ∧ o.preview_height % 2 = 0 ∧
        ∃ s, (make_qt_preview o).1 = Except.ok s ∧
          Effect.threadStart ∈ (make_qt_preview o).2) := by
  by_cases h : o.preview_width % 2 = 1 ∨ o.preview_height % 2 = 1
  · exact Or.inl ⟨h, make_qt_preview_odd o h⟩
  · have hw : o.preview_width % 2 = 0 := by omega
    have hh : o.preview_height % 2 = 0 := by omega
    refine Or.inr ⟨hw, hh, ?_⟩
    rw [make_qt_preview_even o hw hh]
    exact ⟨_, rfl, by simp⟩

/-- Claim C10.  For even option values the constructed sink has the size 512 x 384 when one of
the two values is zero (both dimensions are replaced) and the size given by the options
otherwise. -/
theorem make_qt_preview_size (o : Options) (hw : o.preview_width % 2 = 0)
    (hh : o.preview_height % 2 = 0) :
    ∃ s, (make_qt_preview o).1 = Except.ok s ∧
      (s.window_width_, s.window_height_) =
        if o.preview_width = 0 ∨ o.preview_height = 0 then (512, 384)
        else (o.preview_width, o.preview_height) := by
  rw [make_qt_preview_even o hw hh]
  exact ⟨_, rfl, rfl⟩

/-- Witness of claim C10: the options 0 x 480 give a window of 512 x 384. -/
theorem make_qt_preview_size_witness :
    (0 : Int) % 2 = 0 ∧ (480 : Int) % 2 = 0 ∧
      ∃ s, (make_qt_preview ⟨0, 480, 0, 0, false⟩).1 = Except.ok s ∧
        (s.window_width_, s.window_height_) = (512, 384) :=
  ⟨by decide, by decide, make_qt_preview_size ⟨0, 480, 0, 0, false⟩ (by decide) (by decide)⟩

/-! ## What every call of `Show` keeps -/

theorem refreshLocations_fields (s s1 : QtPreview) (width : Int)
    (h : refreshLocations s width = some s1) :
    s1.main_window_ = s.main_window_ ∧ s1.pane_ = s.pane_ ∧
      s1.window_width_ = s.window_width_ ∧ s1.window_height_ = s.window_height_ := by
  unfold refreshLocations at h
  by_cases hne : s.last_image_width_ ≠ width
  · rw [if_pos hne] at h
    by_cases hneg : s.window_width_ < 0
    · rw [if_pos hneg] at h
      cases h
    · rw [if_neg hneg] at h
      cases hf : fillLocations s.window_width_ width s.window_width_.toNat 0
          (resize s.x_locations_ s.window_width_.toNat) with
      | none => rw [hf] at h; cases h
      | some xs =>
        rw [hf] at h
        cases h
        exact ⟨rfl, rfl, rfl, rfl⟩
  · rw [if_neg hne] at h
    cases h
    exact ⟨rfl, rfl, rfl, rfl⟩

/-- A call of `Show` changes neither the main window nor the window dimensions. -/
theorem Show_fields (c : FpContract) (s s' : QtPreview) (eff : List Effect) (fd : Int)
    (span : List Nat) (width height stride : Int)
    (h : Show c s fd span width height stride = some (s', eff)) :
    s'.main_window_ = s.main_window_ ∧ s'.window_width_ = s.window_width_ ∧
      s'.window_height_ = s.window_height_ := by
  rw [Show_eq] at h
  cases h1 : refreshLocations s width with
  | none => rw [h1] at h; cases h
  | some s1 =>
    obtain ⟨a, _, b, d⟩ := refreshLocations_fields s s1 width h1
    rw [h1] at h
    simp only [Option.some_bind] at h
    cases h2 : frameBytes c s1 span height stride with
    | none => rw [h2] at h; cases h
    | some bs =>
      rw [h2] at h
      simp only [Option.some_bind] at h
      split_ifs at h
      cases h
      exact ⟨a, b, d⟩

theorem blocks_length (f : Nat → Option (List Nat)) (step L : Nat)
    (hf : ∀ i a, f i = some a → a.length = L) :
    ∀ n i bs, blocks f step n i = some bs → bs.length = n * L := by
  intro n
  induction n with
  | zero =>
    intro i bs h
    simp only [blocks, Option.some.injEq] at h
    subst h
    simp
  | succ n ih =>
    intro i bs h
    simp only [blocks] at h
    cases ha : f i with
    | none => rw [ha] at h; cases h
    | some a =>
      rw [ha] at h
      simp only [Option.some_bind] at h
      cases hr : blocks f step n (i + step) with
      | none => rw [hr] at h; cases h
      | some r =>
        rw [hr] at h
        simp only [Option.map_some', Option.some.injEq] at h
        subst h
        rw [List.length_append, hf i a ha, ih _ _ hr, Nat.succ_mul, Nat.add_comm]

theorem pairBytes_length (c : FpContract) (xs span : List Nat) (Y_row U_row V_row : Int)
    (x : Nat) (a : List Nat) (h : pairBytes c xs span Y_row U_row V_row x = some a) :
    a.length = 6 := by
  unfold pairBytes at h
  simp only [Option.bind_eq_bind, Option.bind_eq_some] at h
  obtain ⟨_, _, _, _, _, _, _, _, _, _, _, _, h⟩ := h
  cases h
  rfl

theorem frameBytes_length (c : FpContract) (s : QtPreview) (span : List Nat)
    (height stride : Int) (heven : s.window_width_ % 2 = 0) (bs : List Nat)
    (h : frameBytes c s span height stride = some bs) : bs.length = 3 * s.cols * s.rows := by
  have hline : ∀ y lb, lineBytes c s span height stride y = some lb →
      lb.length = 3 * s.cols := by
    intro y lb hl
    unfold lineBytes at hl
    split_ifs at hl
    have := blocks_length _ 2 6 (fun i a => pairBytes_length c _ _ _ _ _ i a) _ _ _ hl
    rw [this]
    unfold QtPreview.cols
    omega
  unfold frameBytes at h
  split_ifs at h
  have := blocks_length _ 1 (3 * s.cols) hline _ _ _ h
  rw [this]
  unfold QtPreview.rows
  ring

/-- The result of a call of `Show` that returns, for a ready sink and a positive width: line 87
has not overflowed, and the sink and the effects are determined by the bytes stored. -/
theorem Show_some (c : FpContract) (s s' : QtPreview) (eff : List Effect) (hs : Ready s)
    (fd : Int) (span : List Nat) (width height stride : Int) (hw : 0 < width)
    (h : Show c s fd span width height stride = some (s', eff)) :
    TableFits s.window_width_ width ∧
    ∃ bs, bs.length = 3 * s.cols * s.rows ∧
      s' = { s with
              last_image_width_ := width
              x_locations_ := xTable s.window_width_ width
              pane_ := { image := bs } } ∧
      eff = storesFrom 0 bs ++ [Effect.update, Effect.done fd] := by
  rw [Show_eq] at h
  cases h1 : refreshLocations s width with
  | none => rw [h1] at h; cases h
  | some s1 =>
    have hfit := refreshLocations_fits s s1 hs width hw h1
    refine ⟨hfit, ?_⟩
    rw [refreshLocations_ready s hs width hw hfit] at h
    simp only [Option.some_bind] at h
    cases h2 : frameBytes c
        { s with last_image_width_ := width, x_locations_ := xTable s.window_width_ width }
        span height stride with
    | none => rw [h2] at h; cases h
    | some bs =>
      rw [h2] at h
      simp only [Option.some_bind] at h
      have hlen : bs.length = 3 * s.cols * s.rows := frameBytes_length c
        { s with last_image_width_ := width, x_locations_ := xTable s.window_width_ width }
        span height stride hs.2.2.1 bs h2
      have hl : bs.length = s.pane_.image.length := by rw [hs.2.2.2.2.1]; exact hlen
      rw [if_pos (le_of_eq hl), hl, List.drop_length, List.append_nil] at h
      cases h
      exact ⟨bs, hlen, rfl, rfl⟩

theorem Show_some_ready (c : FpContract) (s s' : QtPreview) (eff : List Effect) (hs : Ready s)
    (fd : Int) (span : List Nat) (width height stride : Int) (hw : 0 < width)
    (h : Show c s fd span width height stride = some (s', eff)) :
    Ready s' ∧ s'.window_width_ = s.window_width_ ∧ s'.window_height_ = s.window_height_ := by
  obtain ⟨hfit, bs, hlen, rfl, _⟩ := Show_some c s s' eff hs fd span width height stride hw h
  obtain ⟨h1, h2, h3, h4, _, _⟩ := hs
  exact ⟨⟨h1, h2, h3, h4, hlen, Or.inr ⟨rfl, hfit⟩⟩, rfl, rfl⟩

theorem fresh_ready (s : QtPreview) (hs : Ready s) : Ready (fresh s) := by
  obtain ⟨h1, h2, h3, h4, _, _⟩ := hs
  refine ⟨h1, h2, h3, h4, ?_, Or.inl rfl⟩
  simp [fresh, newImage, QtPreview.cols, QtPreview.rows]

/-- A call of `Show` on a ready sink leaves behind what it leaves behind on the sink as it
was after construction. -/
theorem Show_fresh (c : FpContract) (s : QtPreview) (hs : Ready s) (fd : Int)
    (span : List Nat) (width height stride : Int) (hw : 0 < width) :
    (Show c s fd span width height stride).map observed =
      (Show c (fresh s) fd span width height stride).map observed := by
  have hf := fresh_ready s hs
  by_cases hfit : TableFits s.window_width_ width
  · rw [Show_eq, Show_eq, refreshLocations_ready s hs width hw hfit,
      refreshLocations_ready (fresh s) hf width hw hfit]
    simp only [Option.some_bind]
    have e : frameBytes c
        { fresh s with
          last_image_width_ := width
          x_locations_ := xTable (fresh s).window_width_ width } span height stride =
        frameBytes c
        { s with last_image_width_ := width, x_locations_ := xTable s.window_width_ width }
        span height stride := rfl
    rw [e]
    cases h2 : frameBytes c
        { s with last_image_width_ := width, x_locations_ := xTable s.window_width_ width }
        span height stride with
    | none => rfl
    | some bs =>
      simp only [Option.some_bind]
      have hlen : bs.length = 3 * s.cols * s.rows := frameBytes_length c
        { s with last_image_width_ := width, x_locations_ := xTable s.window_width_ width }
        span height stride hs.2.2.1 bs h2
      have hl : bs.length = s.pane_.image.length := by rw [hs.2.2.2.2.1]; exact hlen
      have hl2 : bs.length = (fresh s).pane_.image.length := by
        rw [hf.2.2.2.2.1]; exact hlen
      have hd1 : List.drop bs.length s.pane_.image = [] := by rw [hl, List.drop_length]
      have hd2 : List.drop bs.length (fresh s).pane_.image = [] := by
        rw [hl2, List.drop_length]
      rw [if_pos (le_of_eq hl), if_pos (le_of_eq hl2), hd1, hd2]
      rfl
  · have n1 : refreshLocations s width = none := by
      cases h : refreshLocations s width with
      | none => rfl
      | some s1 => exact absurd (refreshLocations_fits s s1 hs width hw h) hfit
    have n2 : refreshLocations (fresh s) width = none := by
      cases h : refreshLocations (fresh s) width with
      | none => rfl
      | some s1 => exact absurd (refreshLocations_fits (fresh s) s1 hf width hw h) hfit
    rw [Show_eq, Show_eq, n1, n2]

theorem fresh_eq (s t : QtPreview) (h0 : s.main_window_ = t.main_window_)
    (h1 : s.window_width_ = t.window_width_) (h2 : s.window_height_ = t.window_height_) :
    fresh s = fresh t := by
  unfold fresh
  rw [h0, h1, h2]

theorem showAll_ready (c : FpContract) (fs : List Frame) :
    ∀ s s', Ready s → (∀ f ∈ fs, 0 < f.width) → showAll c s fs = some s' →
      Ready s' ∧ fresh s' = fresh s := by
  induction fs with
  | nil =>
    intro s s' hs _ h
    simp only [showAll, Option.some.injEq] at h
    subst h
    exact ⟨hs, rfl⟩
  | cons f fs ih =>
    intro s s' hs hfs h
    simp only [showAll] at h
    cases h1 : Show c s f.fd f.span f.width f.height f.stride with
    | none => rw [h1] at h; cases h
    | some r =>
      obtain ⟨s1, eff⟩ := r
      rw [h1] at h
      simp only [Option.some_bind] at h
      obtain ⟨r1, _, _⟩ := Show_some_ready c s s1 eff hs f.fd f.span f.width f.height f.stride
        (hfs f (List.mem_cons_self _ _)) h1
      obtain ⟨w0, w1, w2⟩ := Show_fields c s s1 eff f.fd f.span f.width f.height f.stride h1
      obtain ⟨r2, w3⟩ := ih s1 s' r1 (fun g hg => hfs g (List.mem_cons_of_mem _ hg)) h
      exact ⟨r2, by rw [w3, fresh_eq s1 s w0 w1 w2]⟩

/-! ## The close flag -/

theorem step_quit (c : FpContract) (s s' : QtPreview) (e : Event)
    (h : step c s e = some s') :
    Quit s' = (Quit s || decide (e = Event.close)) := by
  cases e with
  | deliver f =>
    simp only [step, Option.map_eq_some'] at h
    obtain ⟨r, hr, rfl⟩ := h
    obtain ⟨s1, eff⟩ := r
    have := (Show_fields c s s1 eff _ _ _ _ _ hr).1
    simp [Quit, this]
  | reset =>
    simp only [step, Option.some.injEq] at h
    subst h
    simp [Quit, Reset]
  | setInfoText text =>
    simp only [step, Option.some.injEq] at h
    subst h
    simp [Quit, SetInfoText]
  | maxImageSize =>
    simp only [step, Option.some.injEq] at h
    subst h
    simp [Quit]
  | close =>
    simp only [step, Option.some.injEq] at h
    subst h
    simp [Quit, closeEvent]

theorem run_quit (c : FpContract) (evs : List Event) :
    ∀ s s', run c s evs = some s' → (Quit s' = true ↔ Quit s = true ∨ Event.close ∈ evs) := by
  induction evs with
  | nil =>
    intro s s' h
    simp only [run, Option.some.injEq] at h
    subst h
    simp
  | cons e es ih =>
    intro s s' h
    simp only [run] at h
    cases h1 : step c s e with
    | none => rw [h1] at h; cases h
    | some s1 =>
      rw [h1] at h
      simp only [Option.some_bind] at h
      rw [ih s1 s' h, step_quit c s s1 e h1]
      simp only [Bool.or_eq_true, decide_eq_true_eq, List.mem_cons]
      constructor
      · rintro ((h | h) | h)
        · exact Or.inl h
        · exact Or.inr (Or.inl h.symm)
        · exact Or.inr (Or.inr h)
      · rintro (h | h | h)
        · exact Or.inl (Or.inl h)
        · exact Or.inl (Or.inr h.symm)
        · exact Or.inr h

theorem make_qt_preview_ok (o : Options) (s : QtPreview)
    (h : (make_qt_preview o).1 = Except.ok s) :
    o.preview_width % 2 = 0 ∧ o.preview_height % 2 = 0 ∧
      s.main_window_.quit = false ∧
      (s.window_width_, s.window_height_) =
        if o.preview_width = 0 ∨ o.preview_height = 0 then (512, 384)
        else (o.preview_width, o.preview_height) := by
  by_cases hodd : o.preview_width % 2 = 1 ∨ o.preview_height % 2 = 1
  · rw [make_qt_preview_odd o hodd] at h
    cases h
  · have hw : o.preview_width % 2 = 0 := by omega
    have hh : o.preview_height % 2 = 0 := by omega
    rw [make_qt_preview_even o hw hh] at h
    simp only [Except.ok.injEq] at h
    subst h
    exact ⟨hw, hh, rfl, rfl⟩

/-! ## The claims about `Show` -/

theorem blackFrame_length (stride : Nat) :
    (blackFrame stride).length = 2 * stride + 2 * (stride / 2) := by
  simp [blackFrame]

theorem readsInSpan_black_2x2_65538 : ReadsInSpan sink2x2 (blackFrame 65538) 65538 2 65538 := by
  intro y hy x hx
  have hy2 : y < 2 := hy
  have hx2 : x < 2 := hx
  simp only [InSpan, blackFrame_length]
  interval_cases y <;> interval_cases x <;> decide

theorem readsInSpan_black_4x4_65538 : ReadsInSpan sink4x4 (blackFrame 65538) 65538 2 65538 := by
  intro y hy x hx
  have hy2 : y < 4 := hy
  have hx2 : x < 4 := hx
  simp only [InSpan, blackFrame_length]
  interval_cases y <;> interval_cases x <;> decide

theorem readsInSpan_black_2x2_70000 : ReadsInSpan sink2x2 (blackFrame 70000) 70000 2 70000 := by
  intro y hy x hx
  have hy2 : y < 2 := hy
  have hx2 : x < 2 := hx
  simp only [InSpan, blackFrame_length]
  interval_cases y <;> interval_cases x <;> decide

/-- For a window of width 65538 and a frame of width 32769 line 87 overflows. -/
theorem tableFits_65538_32769 : ¬ TableFits 65538 32769 := by
  intro h
  have h1 := h 65537 (by decide) ((65537 : Int) * (32769 - 1)) (by decide)
  revert h1
  decide

set_option maxRecDepth 20000 in
/-- Claim C1, counterexample.  For the sink 2 x 2 and the frame `frame2x2` (width, height and
stride 2; samples `Y = 0`, `U = 10`, `V = 143`) `Show` stores the green byte 29, in a build
without contraction and in the builds that contract one or both products of line 123 to a
fused multiply-add, while the formula with decimal coefficients gives
`0 + 0.345 * 118 - 0.714 * 15 = 30`.  For the sink 4 x 4 and the frame `[5, 6]` of width 2,
height 0 and stride 2, `Show` returns and stores a byte for the pixel `(0, 2)`, for which the
documented source row is `floor(-1 / 3) = -1` and the documented luma offset lies before the
span. -/
theorem Show_decimal_formula_counterexample :
    (Show FpContract.off sink2x2 5 frame2x2 2 2 2).map
        (fun r : QtPreview × List Effect => r.1.pane_.image.take 3) = some [21, 29, 0] ∧
      (Show FpContract.on sink2x2 5 frame2x2 2 2 2).map
        (fun r : QtPreview × List Effect => r.1.pane_.image.take 3) = some [21, 29, 0] ∧
      (Show ⟨false, true, false, false⟩ sink2x2 5 frame2x2 2 2 2).map
        (fun r : QtPreview × List Effect => r.1.pane_.image.take 3) = some [21, 29, 0] ∧
      (Show ⟨false, false, true, false⟩ sink2x2 5 frame2x2 2 2 2).map
        (fun r : QtPreview × List Effect => r.1.pane_.image.take 3) = some [21, 29, 0] ∧
      samples sink2x2 frame2x2 2 2 2 0 0 = some (0, 10, 143) ∧
      decimalPixel 0 10 143 = [21, 30, 0] ∧
      (Show FpContract.off sink4x4 5 [5, 6] 2 0 2).map
        (fun r : QtPreview × List Effect => r.1.pane_.image[24]?) = some (some 0) ∧
      samples sink4x4 [5, 6] 2 0 2 2 0 = none := by
  decide

/-- Claim C1, amended.  For a ready sink (even window dimensions of at least two), a frame
with `width > 0`, `height > 0`, `stride >= width` whose documented read offsets lie inside
the span, and a call in which no `int` operation overflows, `Show` returns, and for every
destination row `y` and column `x` the three raster bytes at offset `3 * (y * dw + x)` are the
clamped values of `R`, `G`, `B` computed from the documented samples `Y`, `U`, `V` in binary64
arithmetic, with the contractions `c` of the build (each operation rounded to nearest, the
result truncated toward zero). -/
theorem Show_pixels (c : FpContract) (s : QtPreview) (hs : Ready s) (fd : Int)
    (span : List Nat) (width height stride : Int) (hw : 0 < width) (hh : 0 < height)
    (hst : width ≤ stride) (hfit : NoOverflow s width height stride)
    (hr : ReadsInSpan s span width height stride) :
    ∃ s' eff, Show c s fd span width height stride = some (s', eff) ∧
      ∀ y < s.rows, ∀ x < s.cols, ∃ Y U V,
        samples s span width height stride y x = some (Y, U, V) ∧
        ∀ k < 3, s'.pane_.image[3 * (y * s.cols + x) + k]? = (pixel c Y U V)[k]? := by
  obtain ⟨bs, h, _, hpix⟩ :=
    Show_ready c s hs fd span width height stride hw hh (by omega) hfit hr
  exact ⟨_, _, h, hpix⟩

/-- Witness of claim C1, amended: the sink 2 x 2 and the frame `frame2x2`, in a build that
contracts every product. -/
theorem Show_pixels_witness :
    Ready sink2x2 ∧ (0 : Int) < 2 ∧ (2 : Int) ≤ 2 ∧ NoOverflow sink2x2 2 2 2 ∧
      ReadsInSpan sink2x2 frame2x2 2 2 2 ∧
      ∃ s' eff, Show FpContract.on sink2x2 5 frame2x2 2 2 2 = some (s', eff) ∧
        ∀ y < sink2x2.rows, ∀ x < sink2x2.cols, ∃ Y U V,
          samples sink2x2 frame2x2 2 2 2 y x = some (Y, U, V) ∧
          ∀ k < 3, s'.pane_.image[3 * (y * sink2x2.cols + x) + k]? =
            (pixel FpContract.on Y U V)[k]? :=
  ⟨by decide, by decide, by decide, by decide, by decide,
    Show_pixels FpContract.on sink2x2 (by decide) 5 frame2x2 2 2 2 (by decide) (by decide)
      (by decide) (by decide) (by decide)⟩

/-- Claim C2, the failing input.  For the sink 2 x 2 and a frame of width 65538 (height 2,
stride 65538), in every build, `Show` stores the index vector `[0, 1]`: the entry for the last
column is `65537` reduced modulo `2 ^ 16`, not the value `65537` of the documented formula. -/
theorem Show_index_wraps (c : FpContract) :
    (Show c sink2x2 5 (blackFrame 65538) 65538 2 65538).map
        (fun r : QtPreview × List Effect => r.1.x_locations_) = some [0, 1] ∧
      nearest 2 65538 1 = 65537 := by
  obtain ⟨bs, h, _, _⟩ := Show_ready c sink2x2 (by decide) 5 (blackFrame 65538) 65538 2 65538
    (by decide) (by decide) (by decide) (by decide) readsInSpan_black_2x2_65538
  rw [h]
  simp only [Option.map_some', Option.some.injEq]
  exact ⟨by decide, by decide⟩

/-- Claim C3, counterexample.  The even options -2 x -2 construct the sink `sinkNegative`, and
a call of `Show` on it does not return: `x_locations_.resize(-2)` on line 85 throws before the
release callback of line 140 is reached, so the handle 5 is not released. -/
theorem Show_negative_sink_counterexample :
    (make_qt_preview ⟨-2, -2, 0, 0, false⟩).1 = Except.ok sinkNegative ∧
      Show FpContract.off sinkNegative 5 frame2x2 2 2 2 = none ∧
      Show FpContract.on sinkNegative 5 frame2x2 2 2 2 = none :=
  ⟨by rfl, by decide, by decide⟩

/-- Claim C3, amended.  Whenever `Show` returns, on any sink, its effects are stores into the
raster followed by the repaint request and then by exactly one call of the release callback,
with the handle `fd` that was passed in; and `Show` does return for a ready sink (even window
dimensions of at least two), a frame with `width > 0`, `height > 0`, `stride >= width` whose
read offsets lie inside the span, and a call in which no `int` operation overflows. -/
theorem Show_releases_once (c : FpContract) (s : QtPreview) (fd : Int) (span : List Nat)
    (width height stride : Int) :
    (∀ s' eff, Show c s fd span width height stride = some (s', eff) →
        ∃ stores, eff = stores ++ [Effect.update, Effect.done fd] ∧
          ∀ e ∈ stores, ∃ o b, e = Effect.store o b) ∧
      (Ready s → 0 < width → 0 < height → width ≤ stride →
        NoOverflow s width height stride → ReadsInSpan s span width height stride →
        ∃ s' stores, Show c s fd span width height stride =
          some (s', stores ++ [Effect.update, Effect.done fd]) ∧
          stores.length = 3 * s.cols * s.rows ∧
          ∀ e ∈ stores, ∃ o b, e = Effect.store o b) := by
  constructor
  · intro s' eff h
    rw [Show_eq] at h
    cases h1 : refreshLocations s width with
    | none => rw [h1] at h; cases h
    | some s1 =>
      rw [h1] at h
      simp only [Option.some_bind] at h
      cases h2 : frameBytes c s1 span height stride with
      | none => rw [h2] at h; cases h
      | some bs =>
        rw [h2] at h
        simp only [Option.some_bind] at h
        split_ifs at h
        cases h
        exact ⟨_, rfl, storesFrom_isStore bs 0⟩
  · intro hs hw hh hst hfit hr
    obtain ⟨bs, h, hlen, _⟩ :=
      Show_ready c s hs fd span width height stride hw hh (by omega) hfit hr
    exact ⟨_, _, h, by rw [storesFrom_length, hlen], storesFrom_isStore bs 0⟩

/-- Witness of claim C3, amended: the sink 2 x 2 and the frame `frame2x2`, released with the
handle 5. -/
theorem Show_releases_once_witness :
    Ready sink2x2 ∧ (0 : Int) < 2 ∧ (2 : Int) ≤ 2 ∧ NoOverflow sink2x2 2 2 2 ∧
      ReadsInSpan sink2x2 frame2x2 2 2 2 ∧
      ∃ s' stores, Show FpContract.off sink2x2 5 frame2x2 2 2 2 =
        some (s', stores ++ [Effect.update, Effect.done 5]) ∧
        stores.length = 3 * sink2x2.cols * sink2x2.rows ∧
        ∀ e ∈ stores, ∃ o b, e = Effect.store o b :=
  ⟨by decide, by decide, by decide, by decide, by decide,
    (Show_releases_once FpContract.off sink2x2 5 frame2x2 2 2 2).2 (by decide) (by decide)
      (by decide) (by decide) (by decide) (by decide)⟩

/-- Claim C5, the failing input.  The options 65538 x 2 construct the sink `sink65538x2`.  For a
frame of width 32769 (height 2, stride 32770) line 87 computes at the position 65537 the
product `65537 * 32768 = 2147516416`, which is not a value of the type `int`: the call has
undefined behaviour, in every build, and stores no entry in `[0, 32768]` for that position.
With the product reduced to 32 bits (`2147516416 - 2 ^ 32`) the quotient is `-32766`, stored
in the `uint16_t` element as `32770`, which is above `width - 1 = 32768`; the documented
formula gives `32768`. -/
theorem Show_index_overflow (c : FpContract) :
    (make_qt_preview ⟨65538, 2, 0, 0, false⟩).1 = Except.ok sink65538x2 ∧
      (65537 : Int) * (32769 - 1) ∈ line87 65538 32769 65537 ∧
      ¬ FitsInt ((65537 : Int) * (32769 - 1)) ∧
      Show c sink65538x2 5 (blackFrame 32770) 32769 2 32770 = none ∧
      toUInt16 (((65537 : Int) * (32769 - 1) - 4294967296 + ((65538 : Int) - 1).tdiv 2).tdiv
        (65538 - 1)) = 32770 ∧
      nearest 65538 32769 65537 = 32768 := by
  refine ⟨?_, by decide, by decide, ?_, by decide, by decide⟩
  · rw [make_qt_preview_even _ (by decide) (by decide)]
    rfl
  · rw [Show_eq, refreshLocations_overflow sink65538x2 32769 (by decide) tableFits_65538_32769]
    rfl

/-- Inside the sizes of `int` the index vector is in range: for a ready sink, a frame of width
at least two and a call without overflow, the index vector stored by `Show` has one entry for
each destination column and every entry is at most `width - 1`. -/
theorem Show_index_in_range (c : FpContract) (s : QtPreview) (hs : Ready s) (fd : Int)
    (span : List Nat) (width height stride : Int) (hw : 2 ≤ width) (hh : 0 < height)
    (hst : width ≤ stride) (hfit : NoOverflow s width height stride)
    (hr : ReadsInSpan s span width height stride) :
    ∃ s' eff, Show c s fd span width height stride = some (s', eff) ∧
      s'.x_locations_.length = s.cols ∧
      ∀ i < s.cols, ∃ v, s'.x_locations_[i]? = some v ∧ (v : Int) ≤ width - 1 := by
  obtain ⟨bs, h, _, _⟩ :=
    Show_ready c s hs fd span width height stride (by omega) hh (by omega) hfit hr
  refine ⟨_, _, h, xTable_length _ _, fun i hi => ?_⟩
  refine ⟨_, xTable_getElem? _ _ i hi, ?_⟩
  have h2 := hs.1
  have hi2 : (i : Int) < s.window_width_ := by unfold QtPreview.cols at hi; omega
  rw [cacheEntry_eq _ _ _ h2 (by omega)]
  have := toUInt16_le _ (nearest_nonneg s.window_width_ width i h2 (by omega))
  have := nearest_le s.window_width_ width i h2 (by omega) hi2
  omega

/-- Claim C6, the failing input.  For the sink 4 x 4 and a frame of width 65538 (height 2,
stride 65538) `Show` stores the index vector `[0, 21846, 43691, 1]`, which decreases from
position 2 to position 3. -/
theorem Show_index_not_monotone (c : FpContract) :
    (Show c sink4x4 5 (blackFrame 65538) 65538 2 65538).map
        (fun r : QtPreview × List Effect => r.1.x_locations_) = some [0, 21846, 43691, 1] := by
  obtain ⟨bs, h, _, _⟩ := Show_ready c sink4x4 (by decide) 5 (blackFrame 65538) 65538 2 65538
    (by decide) (by decide) (by decide) (by decide) readsInSpan_black_4x4_65538
  rw [h]
  simp only [Option.map_some', Option.some.injEq]
  decide

/-- Claim C7, the failing input.  For the sink 2 x 2 and a frame of width 70000 (height 2,
stride 70000) `Show` stores the index vector `[0, 4463]`: the last destination column is
mapped to the source column 4463, not to the last source column 69999. -/
theorem Show_index_last_wraps (c : FpContract) :
    (Show c sink2x2 5 (blackFrame 70000) 70000 2 70000).map
        (fun r : QtPreview × List Effect => r.1.x_locations_) = some [0, 4463] := by
  obtain ⟨bs, h, _, _⟩ := Show_ready c sink2x2 (by decide) 5 (blackFrame 70000) 70000 2 70000
    (by decide) (by decide) (by decide) (by decide) readsInSpan_black_2x2_70000
  rw [h]
  simp only [Option.map_some', Option.some.injEq]
  decide

set_option maxRecDepth 20000 in
/-- Claim C8.  In every build, for all samples `Y`, `U`, `V` (in particular for bytes, and for
the extremes `U = V = 255` and `U = V = 0`) each of the three bytes stored for a pixel is the
clamped channel value itself and lies in `[0, 255]`: the conversion to a byte does not wrap.
With `Y = U = V = 255` the channels 433, 120, 479 are stored as 255, 120, 255; with
`Y = U = V = 0` the channels -179, 135, -226 are stored as 0, 135, 0. -/
theorem stored_channels_in_range (c : FpContract) (Y U V : Int) :
    ((toUInt8 (clamp (red c Y (V - 128)) 0 255) : Int) = clamp (red c Y (V - 128)) 0 255 ∧
        toUInt8 (clamp (red c Y (V - 128)) 0 255) ≤ 255) ∧
      ((toUInt8 (clamp (green c Y (U - 128) (V - 128)) 0 255) : Int) =
          clamp (green c Y (U - 128) (V - 128)) 0 255 ∧
        toUInt8 (clamp (green c Y (U - 128) (V - 128)) 0 255) ≤ 255) ∧
      ((toUInt8 (clamp (blue c Y (U - 128)) 0 255) : Int) = clamp (blue c Y (U - 128)) 0 255 ∧
        toUInt8 (clamp (blue c Y (U - 128)) 0 255) ≤ 255) ∧
      [red c 255 (255 - 128), green c 255 (255 - 128) (255 - 128), blue c 255 (255 - 128)] =
        [433, 120, 479] ∧
      pixel c 255 255 255 = [255, 120, 255] ∧
      [red c 0 (0 - 128), green c 0 (0 - 128) (0 - 128), blue c 0 (0 - 128)] = [-179, 135, -226] ∧
      pixel c 0 0 0 = [0, 135, 0] := by
  have key : ∀ v : Int, (toUInt8 (clamp v 0 255) : Int) = clamp v 0 255 ∧
      toUInt8 (clamp v 0 255) ≤ 255 := by
    intro v
    have h := clamp_range v
    rw [toUInt8_clamp]
    constructor <;> omega
  refine ⟨key _, key _, key _, ?_⟩
  obtain ⟨a, b, d, e⟩ := c
  cases a <;> cases b <;> cases d <;> cases e <;> decide

/-- Claim C9.  For a ready sink (even window dimensions of at least two) and a frame of positive
width, every call of `Show` that returns has stored exactly `dw * dh * 3` bytes, at the offsets
`0, 1, ..., dw * dh * 3 - 1` in this order, which is the size of the raster, and the positions
of the index vector read by the inner loop, `0 .. 2 * ((dw + 1) / 2) - 1`, are exactly the
positions of the vector; and `Show` does return for a frame with `height > 0`,
`stride >= width` whose read offsets lie inside the span, when no `int` operation of the call
overflows. -/
theorem Show_output_size (c : FpContract) (s : QtPreview) (hs : Ready s) (fd : Int)
    (span : List Nat) (width height stride : Int) (hw : 0 < width) :
    (∀ s' eff, Show c s fd span width height stride = some (s', eff) →
        eff.filterMap storeOffset = List.range (s.cols * s.rows * 3) ∧
        s'.pane_.image.length = s.cols * s.rows * 3 ∧
        2 * ((s.cols + 1) / 2) = s'.x_locations_.length) ∧
      (0 < height → width ≤ stride → NoOverflow s width height stride →
        ReadsInSpan s span width height stride →
        ∃ s' eff, Show c s fd span width height stride = some (s', eff)) := by
  constructor
  · intro s' eff h
    obtain ⟨_, bs, hlen, rfl, rfl⟩ := Show_some c s s' eff hs fd span width height stride hw h
    have hl : bs.length = s.cols * s.rows * 3 := by rw [hlen]; ring
    refine ⟨?_, hl, ?_⟩
    · rw [List.filterMap_append, storesFrom_offsets, hl, List.range_eq_range']
      simp [storeOffset]
    · rw [xTable_length]
      have := hs.2.2.1
      unfold QtPreview.cols
      omega
  · intro hh hst hfit hr
    obtain ⟨bs, h, _, _⟩ :=
      Show_ready c s hs fd span width height stride hw hh (by omega) hfit hr
    exact ⟨_, _, h⟩

/-- Witness of claim C9: the sink 2 x 2 and the frame `frame2x2`; the call returns, and it has
stored the twelve bytes of the raster at the offsets 0 to 11. -/
theorem Show_output_size_witness :
    Ready sink2x2 ∧ (0 : Int) < 2 ∧ (2 : Int) ≤ 2 ∧ NoOverflow sink2x2 2 2 2 ∧
      ReadsInSpan sink2x2 frame2x2 2 2 2 ∧
      ∃ s' eff, Show FpContract.off sink2x2 5 frame2x2 2 2 2 = some (s', eff) ∧
        eff.filterMap storeOffset = List.range (sink2x2.cols * sink2x2.rows * 3) ∧
        s'.pane_.image.length = sink2x2.cols * sink2x2.rows * 3 ∧
        2 * ((sink2x2.cols + 1) / 2) = s'.x_locations_.length := by
  have h := Show_output_size FpContract.off sink2x2 (by decide) 5 frame2x2 2 2 2 (by decide)
  obtain ⟨s', eff, hs⟩ := h.2 (by decide) (by decide) (by decide) (by decide)
  exact ⟨by decide, by decide, by decide, by decide, by decide, s', eff, hs, h.1 s' eff hs⟩

/-! ## The claims about the state of the sink -/

/-- Claim C11.  After a successful construction `Quit` returns `false`.  In every state
reached from there by calls of `Show`, `Reset`, `SetInfoText`, `MaxImageSize` and close events,
`Quit` returns `true` exactly when a close event is among the events handled; every single
event leaves the flag as it was unless it is a close event, which sets it, so that the flag
never returns to `false`; and the close handler ignores the event. -/
theorem Quit_iff_closed (c : FpContract) (o : Options) (s0 : QtPreview)
    (h0 : (make_qt_preview o).1 = Except.ok s0) (evs : List Event) (s : QtPreview)
    (hrun : run c s0 evs = some s) :
    Quit s0 = false ∧ (Quit s = true ↔ Event.close ∈ evs) ∧
      (∀ e s', step c s e = some s' → Quit s' = (Quit s || decide (e = Event.close))) ∧
      (∃ s', step c s Event.close = some s' ∧ Quit s' = true) ∧
      closeEvent s.main_window_ = ({ quit := true }, [Effect.ignore]) := by
  have hq : Quit s0 = false := (make_qt_preview_ok o s0 h0).2.2.1
  refine ⟨hq, ?_, fun e s' h => step_quit c s s' e h, ⟨_, rfl, rfl⟩, rfl⟩
  rw [run_quit c evs s0 s hrun, hq]
  simp

/-- Witness of claim C11: the sink 2 x 2 after a call of `Show`, a close event, a call of
`Reset` and a second call of `Show`. -/
theorem Quit_iff_closed_witness :
    (make_qt_preview ⟨2, 2, 0, 0, false⟩).1 = Except.ok sink2x2 ∧
      (run FpContract.off sink2x2
          [Event.deliver ⟨5, frame2x2, 2, 2, 2⟩, Event.close, Event.reset,
            Event.deliver ⟨6, frame2x2, 2, 2, 2⟩]).isSome = true ∧
      ∀ s, run FpContract.off sink2x2
          [Event.deliver ⟨5, frame2x2, 2, 2, 2⟩, Event.close, Event.reset,
            Event.deliver ⟨6, frame2x2, 2, 2, 2⟩] = some s →
        (Quit sink2x2 = false ∧
          (Quit s = true ↔ Event.close ∈
            [Event.deliver ⟨5, frame2x2, 2, 2, 2⟩, Event.close, Event.reset,
              Event.deliver ⟨6, frame2x2, 2, 2, 2⟩]) ∧
          (∀ e s', step FpContract.off s e = some s' →
            Quit s' = (Quit s || decide (e = Event.close))) ∧
          (∃ s', step FpContract.off s Event.close = some s' ∧ Quit s' = true) ∧
          closeEvent s.main_window_ = ({ quit := true }, [Effect.ignore])) :=
  ⟨rfl, by decide, fun s hs =>
    Quit_iff_closed FpContract.off ⟨2, 2, 0, 0, false⟩ sink2x2 rfl _ s hs⟩

/-- Claim C14, counterexample.  The even options `-2 x -2` construct a sink, and its
destination dimensions are `-2` and `-2`, which are not at least two. -/
theorem make_qt_preview_negative :
    (make_qt_preview ⟨-2, -2, 0, 0, false⟩).1 = Except.ok sinkNegative ∧
      sinkNegative.window_width_ = -2 ∧ sinkNegative.window_height_ = -2 ∧
      ¬ (2 ≤ sinkNegative.window_width_) ∧ ¬ (2 ≤ sinkNegative.window_height_) :=
  ⟨rfl, rfl, rfl, by decide, by decide⟩

/-- Claim C14, amended.  If construction succeeds, the destination width and height are both
even and different from zero, and they are at least two when the option values are not
negative; construction fails with the configuration error exactly when an option value is
odd. -/
theorem make_qt_preview_validated (o : Options) (s : QtPreview)
    (h : (make_qt_preview o).1 = Except.ok s) :
    s.window_width_ % 2 = 0 ∧ s.window_height_ % 2 = 0 ∧
      s.window_width_ ≠ 0 ∧ s.window_height_ ≠ 0 ∧
      (0 ≤ o.preview_width → 0 ≤ o.preview_height →
        2 ≤ s.window_width_ ∧ 2 ≤ s.window_height_) ∧
      ¬ (o.preview_width % 2 = 1 ∨ o.preview_height % 2 = 1) := by
  obtain ⟨hw, hh, _, hsize⟩ := make_qt_preview_ok o s h
  by_cases hz : o.preview_width = 0 ∨ o.preview_height = 0
  · rw [if_pos hz] at hsize
    simp only [Prod.mk.injEq] at hsize
    obtain ⟨a, b⟩ := hsize
    rw [a, b]
    refine ⟨by decide, by decide, by decide, by decide, fun _ _ => ⟨by decide, by decide⟩,
      by omega⟩
  · rw [if_neg hz] at hsize
    simp only [Prod.mk.injEq] at hsize
    obtain ⟨a, b⟩ := hsize
    rw [a, b]
    refine ⟨hw, hh, by omega, by omega, fun _ _ => ⟨by omega, by omega⟩, by omega⟩

/-- Witness of claim C14, amended: the options `2 x 2`. -/
theorem make_qt_preview_validated_witness :
    (make_qt_preview ⟨2, 2, 0, 0, false⟩).1 = Except.ok sink2x2 ∧
      sink2x2.window_width_ % 2 = 0 ∧ sink2x2.window_height_ % 2 = 0 ∧
      sink2x2.window_width_ ≠ 0 ∧ sink2x2.window_height_ ≠ 0 ∧
      ((0 : Int) ≤ 2 → (0 : Int) ≤ 2 →
        2 ≤ sink2x2.window_width_ ∧ 2 ≤ sink2x2.window_height_) ∧
      ¬ ((2 : Int) % 2 = 1 ∨ (2 : Int) % 2 = 1) :=
  ⟨rfl, make_qt_preview_validated ⟨2, 2, 0, 0, false⟩ sink2x2 rfl⟩

/-- Claim C18.  If the constructor does not throw, the stored `window_width_` and
`window_height_` are even and different from zero, so the divisors `window_width_ - 1` and
`window_height_ - 1` of lines 87 and 101 are different from zero; and a call of `Show` leaves
both dimensions as they are, so this holds for every later call. -/
theorem make_qt_preview_divisors (o : Options) (s : QtPreview)
    (h : (make_qt_preview o).1 = Except.ok s) :
    (s.window_width_ % 2 = 0 ∧ s.window_width_ ≠ 0 ∧ s.window_width_ - 1 ≠ 0) ∧
      (s.window_height_ % 2 = 0 ∧ s.window_height_ ≠ 0 ∧ s.window_height_ - 1 ≠ 0) ∧
      ∀ c fd span width height stride s' eff,
        Show c s fd span width height stride = some (s', eff) →
          s'.window_width_ - 1 ≠ 0 ∧ s'.window_height_ - 1 ≠ 0 := by
  obtain ⟨hw, hh, _, hsize⟩ := make_qt_preview_ok o s h
  have key : (s.window_width_ % 2 = 0 ∧ s.window_width_ ≠ 0) ∧
      (s.window_height_ % 2 = 0 ∧ s.window_height_ ≠ 0) := by
    by_cases hz : o.preview_width = 0 ∨ o.preview_height = 0
    · rw [if_pos hz] at hsize
      simp only [Prod.mk.injEq] at hsize
      obtain ⟨a, b⟩ := hsize
      rw [a, b]
      exact ⟨⟨by decide, by decide⟩, ⟨by decide, by decide⟩⟩
    · rw [if_neg hz] at hsize
      simp only [Prod.mk.injEq] at hsize
      obtain ⟨a, b⟩ := hsize
      rw [a, b]
      exact ⟨⟨hw, by omega⟩, ⟨hh, by omega⟩⟩
  obtain ⟨⟨a1, a2⟩, ⟨b1, b2⟩⟩ := key
  refine ⟨⟨a1, a2, by omega⟩, ⟨b1, b2, by omega⟩, ?_⟩
  intro c fd span width height stride s' eff hshow
  obtain ⟨_, c1, c2⟩ := Show_fields c s s' eff fd span width height stride hshow
  rw [c1, c2]
  exact ⟨by omega, by omega⟩

/-- Witness of claim C18: the options `-2 x -2`, for which both divisors are `-3`. -/
theorem make_qt_preview_divisors_witness :
    (make_qt_preview ⟨-2, -2, 0, 0, false⟩).1 = Except.ok sinkNegative ∧
      (sinkNegative.window_width_ % 2 = 0 ∧ sinkNegative.window_width_ ≠ 0 ∧
        sinkNegative.window_width_ - 1 ≠ 0) ∧
      (sinkNegative.window_height_ % 2 = 0 ∧ sinkNegative.window_height_ ≠ 0 ∧
        sinkNegative.window_height_ - 1 ≠ 0) ∧
      ∀ c fd span width height stride s' eff,
        Show c sinkNegative fd span width height stride = some (s', eff) →
          s'.window_width_ - 1 ≠ 0 ∧ s'.window_height_ - 1 ≠ 0 :=
  ⟨by rfl, make_qt_preview_divisors ⟨-2, -2, 0, 0, false⟩ sinkNegative (by rfl)⟩

/-- Claim C15.  Let a ready sink go through any sequence of calls of `Show` with frames of
positive width, and then receive a frame `f` of positive width.  What this call leaves behind
(index vector, raster, effects) is what the same call leaves behind on the sink as it was
after construction, and the call returns in the one case exactly when it returns in the other;
the index vector is then the table computed for the width of `f`, with one entry for each
destination column; and delivering `f` once more leaves the same index vector and raster. -/
theorem Show_history_independent (c : FpContract) (s0 : QtPreview) (h0 : Ready s0)
    (fs : List Frame)
    (hfs : ∀ g ∈ fs, 0 < g.width) (sm : QtPreview) (hrun : showAll c s0 fs = some sm)
    (f : Frame) (hf : 0 < f.width) :
    (Show c sm f.fd f.span f.width f.height f.stride).map observed =
        (Show c (fresh s0) f.fd f.span f.width f.height f.stride).map observed ∧
      ∀ s1 e1, Show c sm f.fd f.span f.width f.height f.stride = some (s1, e1) →
        s1.x_locations_ = xTable s0.window_width_ f.width ∧
        s1.x_locations_.length = s0.cols ∧
        (Show c s1 f.fd f.span f.width f.height f.stride).map observed =
          some (observed (s1, e1)) := by
  obtain ⟨hm, hfr⟩ := showAll_ready c fs s0 sm h0 hfs hrun
  have hfirst : (Show c sm f.fd f.span f.width f.height f.stride).map observed =
      (Show c (fresh s0) f.fd f.span f.width f.height f.stride).map observed := by
    rw [Show_fresh c sm hm f.fd f.span f.width f.height f.stride hf, hfr]
  refine ⟨hfirst, fun s1 e1 h1 => ?_⟩
  obtain ⟨_, bs, _, hs1, _⟩ := Show_some c sm s1 e1 hm f.fd f.span f.width f.height f.stride hf h1
  obtain ⟨r1, _, _⟩ := Show_some_ready c sm s1 e1 hm f.fd f.span f.width f.height f.stride hf h1
  obtain ⟨w0, w1, w2⟩ := Show_fields c sm s1 e1 f.fd f.span f.width f.height f.stride h1
  have hdims : sm.window_width_ = s0.window_width_ := by
    have := congrArg QtPreview.window_width_ hfr
    exact this
  refine ⟨by rw [hs1, hdims], by rw [hs1]; simp only [xTable_length, hdims, QtPreview.cols], ?_⟩
  rw [Show_fresh c s1 r1 f.fd f.span f.width f.height f.stride hf, fresh_eq s1 sm w0 w1 w2,
    ← Show_fresh c sm hm f.fd f.span f.width f.height f.stride hf, h1]
  rfl

/-- Witness of claim C15: the sink 2 x 2 receives a frame of width 4 and then the frame
`frame2x2` of width 2. -/
theorem Show_history_independent_witness :
    Ready sink2x2 ∧
      (∃ sm, showAll FpContract.off sink2x2
          [⟨5, [1, 2, 3, 4, 5, 6, 7, 8, 9, 10, 11, 12], 4, 2, 4⟩] = some sm ∧
        (Show FpContract.off sm 6 frame2x2 2 2 2).map observed =
            (Show FpContract.off (fresh sink2x2) 6 frame2x2 2 2 2).map observed ∧
          ∀ s1 e1, Show FpContract.off sm 6 frame2x2 2 2 2 = some (s1, e1) →
            s1.x_locations_ = xTable sink2x2.window_width_ 2 ∧
            s1.x_locations_.length = sink2x2.cols ∧
            (Show FpContract.off s1 6 frame2x2 2 2 2).map observed = some (observed (s1, e1))) := by
  refine ⟨by decide, ?_⟩
  cases h : showAll FpContract.off sink2x2
      [⟨5, [1, 2, 3, 4, 5, 6, 7, 8, 9, 10, 11, 12], 4, 2, 4⟩] with
  | none => exact absurd h (by decide)
  | some sm =>
    exact ⟨sm, rfl,
      Show_history_independent FpContract.off sink2x2 (by decide)
        [⟨5, [1, 2, 3, 4, 5, 6, 7, 8, 9, 10, 11, 12], 4, 2, 4⟩] (by decide) sm h
        ⟨6, frame2x2, 2, 2, 2⟩ (by decide)⟩

/-! ## The planes of a frame -/

theorem cacheEntry_le (ww width : Int) (x : Nat) (hd : 2 ≤ ww) (hw : 0 < width)
    (hx : (x : Int) < ww) : (cacheEntry ww width x : Int) ≤ width - 1 := by
  rw [cacheEntry_eq _ _ _ hd hw]
  have := toUInt16_le _ (nearest_nonneg ww width x hd hw)
  have := nearest_le ww width x hd hw hx
  omega

theorem yOffset_range (s : QtPreview) (width height stride : Int) (y x : Nat)
    (hww : 2 ≤ s.window_width_) (hwh : 2 ≤ s.window_height_) (hw : 0 < width)
    (hh : 0 < height) (hst : width ≤ stride) (hy : y < s.rows) (hx : x < s.cols) :
    0 ≤ yOffset s width height stride y x ∧
      yOffset s width height stride y x < stride * height := by
  unfold yOffset
  have hy2 : (y : Int) < s.window_height_ := by unfold QtPreview.rows at hy; omega
  have hx2 : (x : Int) < s.window_width_ := by unfold QtPreview.cols at hx; omega
  have r0 := nearest_nonneg s.window_height_ height y hwh hh
  have r1 := nearest_le s.window_height_ height y hwh hh hy2
  have c1 := cacheEntry_le s.window_width_ width x hww hw hx2
  have p0 : 0 ≤ nearest s.window_height_ height y * stride := mul_nonneg r0 (by omega)
  have p1 : nearest s.window_height_ height y * stride ≤ (height - 1) * stride :=
    mul_le_mul_of_nonneg_right r1 (by omega)
  have e : (height - 1) * stride = stride * height - stride := by ring
  constructor <;> omega

theorem uOffset_lower (s : QtPreview) (width height stride : Int) (y x : Nat)
    (hwh : 2 ≤ s.window_height_) (hh : 0 < height) (hst : 0 ≤ stride) :
    stride * height ≤ uOffset s width height stride y x := by
  unfold uOffset
  simp only [Nat.cast_ofNat]
  have r0 := nearest_nonneg s.window_height_ height y hwh hh
  have p0 : 0 ≤ nearest s.window_height_ height y / 2 * (stride / 2) :=
    mul_nonneg (Int.ediv_nonneg r0 (by decide)) (Int.ediv_nonneg hst (by decide))
  omega

theorem vOffset_lower (s : QtPreview) (width height stride : Int) (y x : Nat)
    (hwh : 2 ≤ s.window_height_) (hh : 0 < height) (hst : 0 ≤ stride) :
    stride * height + stride / 2 * (height / 2) ≤ vOffset s width height stride y x := by
  unfold vOffset
  simp only [Nat.cast_ofNat]
  have r0 := nearest_nonneg s.window_height_ height y hwh hh
  have p0 : 0 ≤ nearest s.window_height_ height y / 2 * (stride / 2) :=
    mul_nonneg (Int.ediv_nonneg r0 (by decide)) (Int.ediv_nonneg hst (by decide))
  omega

theorem chroma_upper (s : QtPreview) (width height stride : Int) (y x : Nat)
    (hww : 2 ≤ s.window_width_) (hwh : 2 ≤ s.window_height_) (hw : 0 < width)
    (hh : 0 < height) (hheven : height % 2 = 0) (hpar : width ≤ 2 * (stride / 2))
    (hy : y < s.rows) (hx : x < s.cols) :
    uOffset s width height stride y x < stride * height + stride / 2 * (height / 2) ∧
      vOffset s width height stride y x <
        stride * height + 2 * (stride / 2 * (height / 2)) := by
  unfold uOffset vOffset
  simp only [Nat.cast_ofNat]
  have hy2 : (y : Int) < s.window_height_ := by unfold QtPreview.rows at hy; omega
  have hx2 : ((2 * (x / 2) : Nat) : Int) < s.window_width_ := by
    unfold QtPreview.cols at hx; omega
  have r0 := nearest_nonneg s.window_height_ height y hwh hh
  have r1 := nearest_le s.window_height_ height y hwh hh hy2
  have c1 := cacheEntry_le s.window_width_ width (2 * (x / 2)) hww hw hx2
  have hsh : cacheEntry s.window_width_ width (2 * (x / 2)) >>> 1 =
      cacheEntry s.window_width_ width (2 * (x / 2)) / 2 := by
    rw [Nat.shiftRight_eq_div_pow, pow_one]
  rw [hsh]
  have r2 : nearest s.window_height_ height y / 2 ≤ height / 2 - 1 := by omega
  have m0 : 0 ≤ stride / 2 := by omega
  have p1 : nearest s.window_height_ height y / 2 * (stride / 2) ≤
      (height / 2 - 1) * (stride / 2) := mul_le_mul_of_nonneg_right r2 m0
  have e : (height / 2 - 1) * (stride / 2) = stride / 2 * (height / 2) - stride / 2 := by ring
  constructor <;> omega

/-- For a frame with the documented layout, every documented read lies in its plane. -/
theorem reads_in_planes (s : QtPreview) (hs : Ready s) (span : List Nat)
    (width height stride : Int) (hw : 0 < width) (hh : 2 ≤ height) (hheven : height % 2 = 0)
    (hpar : width ≤ 2 * (stride / 2))
    (hlen : (span.length : Int) = stride * height + 2 * (stride / 2 * (height / 2))) :
    ∀ y < s.rows, ∀ x < s.cols,
      (0 ≤ yOffset s width height stride y x ∧
        yOffset s width height stride y x < stride * height) ∧
      (stride * height ≤ uOffset s width height stride y x ∧
        uOffset s width height stride y x < stride * height + stride / 2 * (height / 2)) ∧
      (stride * height + stride / 2 * (height / 2) ≤ vOffset s width height stride y x ∧
        vOffset s width height stride y x < (span.length : Int)) := by
  intro y hy x hx
  obtain ⟨h1, h2, _, _, _, _⟩ := hs
  have hst : width ≤ stride := by omega
  have a := yOffset_range s width height stride y x h1 h2 hw (by omega) hst hy hx
  have b := uOffset_lower s width height stride y x h2 (by omega) (by omega)
  have c := vOffset_lower s width height stride y x h2 (by omega) (by omega)
  have d := chroma_upper s width height stride y x h1 h2 hw (by omega) hheven hpar hy hx
  rw [hlen]
  exact ⟨a, ⟨b, d.1⟩, ⟨c, d.2⟩⟩

theorem reads_in_planes_span (s : QtPreview) (hs : Ready s) (span : List Nat)
    (width height stride : Int) (hw : 0 < width) (hh : 2 ≤ height) (hheven : height % 2 = 0)
    (hpar : width ≤ 2 * (stride / 2))
    (hlen : (span.length : Int) = stride * height + 2 * (stride / 2 * (height / 2))) :
    ReadsInSpan s span width height stride := by
  intro y hy x hx
  obtain ⟨⟨a0, a1⟩, ⟨b0, b1⟩, ⟨c0, c1⟩⟩ :=
    reads_in_planes s hs span width height stride hw hh hheven hpar hlen y hy x hx
  have hst : 0 ≤ stride := by omega
  have p : 0 ≤ stride * height := mul_nonneg hst (by omega)
  have q : 0 ≤ stride / 2 * (height / 2) :=
    mul_nonneg (Int.ediv_nonneg hst (by decide)) (Int.ediv_nonneg (by omega) (by decide))
  unfold InSpan
  refine ⟨⟨a0, ?_⟩, ⟨?_, ?_⟩, ⟨?_, c1⟩⟩ <;> omega

/-! ## Frames of neutral chroma -/

theorem Double.ofInt_zero : Double.ofInt 0 = ⟨0, 0⟩ := by decide

theorem Double.mul_zero (k : Double) : Double.mul k ⟨0, 0⟩ = ⟨0, k.expo⟩ := by
  simp [Double.mul, Double.round53, bitLength, bitLengthAux]

theorem Double.fma_zero (k y : Double) :
    Double.fma k ⟨0, 0⟩ y = Double.add y (Double.mul k ⟨0, 0⟩) := by
  rw [Double.mul_zero]
  simp [Double.fma, Double.add, add_comm, min_comm]

theorem Double.fnma_zero (k y : Double) :
    Double.fnma k ⟨0, 0⟩ y = Double.sub y (Double.mul k ⟨0, 0⟩) := by
  rw [Double.mul_zero]
  simp [Double.fnma, Double.sub, Double.neg]

/-- With a chroma difference of zero a contraction changes nothing: the product is zero,
rounded or not. -/
theorem red_neutral (c : FpContract) (Y : Int) : red c Y 0 = red FpContract.off Y 0 := by
  unfold red
  cases c.red <;> simp [Double.ofInt_zero, Double.fma_zero, FpContract.off]

theorem green_neutral (c : FpContract) (Y : Int) :
    green c Y 0 0 = green FpContract.off Y 0 0 := by
  unfold green
  cases c.greenU <;> cases c.greenV <;>
    simp [Double.ofInt_zero, Double.fnma_zero, FpContract.off]

theorem blue_neutral (c : FpContract) (Y : Int) : blue c Y 0 = blue FpContract.off Y 0 := by
  unfold blue
  cases c.blue <;> simp [Double.ofInt_zero, Double.fma_zero, FpContract.off]

set_option maxRecDepth 100000 in
theorem pixel_gray_strict : ∀ g < 256, pixel FpContract.off g 128 128 = [g, g, g] := by
  decide

theorem pixel_gray (c : FpContract) (g : Nat) (hg : g < 256) :
    pixel c g 128 128 = [g, g, g] := by
  have h := pixel_gray_strict g hg
  have h0 : ((128 : Nat) : Int) - 128 = 0 := by decide
  unfold pixel at h ⊢
  rw [h0] at h ⊢
  rw [red_neutral, green_neutral, blue_neutral]
  exact h

theorem readByte_some (span : List Nat) (offset : Int) (v : Nat)
    (h : readByte span offset = some v) : InSpan span offset := by
  unfold readByte at h
  split_ifs at h with h0
  obtain ⟨hlt, _⟩ := List.getElem?_eq_some.mp h
  unfold InSpan
  omega

/-- The three reads documented for a destination pixel, in a frame of neutral chroma. -/
theorem reads_gray (s : QtPreview) (span : List Nat) (width height stride : Int) (g : Nat)
    (hww : 2 ≤ s.window_width_) (hwh : 2 ≤ s.window_height_) (hw : 0 < width)
    (hh : 0 < height) (hheven : height % 2 = 0)
    (hg : GraySamples span width height stride g)
    (y x : Nat) (hy : y < s.rows) (hx : x < s.cols) :
    readByte span (yOffset s width height stride y x) = some g ∧
      readByte span (uOffset s width height stride y x) = some 128 ∧
      readByte span (vOffset s width height stride y x) = some 128 := by
  have hy2 : (y : Int) < s.window_height_ := by unfold QtPreview.rows at hy; omega
  have hx2 : (x : Int) < s.window_width_ := by unfold QtPreview.cols at hx; omega
  have hx3 : ((2 * (x / 2) : Nat) : Int) < s.window_width_ := by omega
  have r0 := nearest_nonneg s.window_height_ height y hwh hh
  have r1 := nearest_le s.window_height_ height y hwh hh hy2
  have c1 := cacheEntry_le s.window_width_ width x hww hw hx2
  have c2 := cacheEntry_le s.window_width_ width (2 * (x / 2)) hww hw hx3
  have hsh : cacheEntry s.window_width_ width (2 * (x / 2)) >>> 1 =
      cacheEntry s.window_width_ width (2 * (x / 2)) / 2 := by
    rw [Nat.shiftRight_eq_div_pow, pow_one]
  have er : (((nearest s.window_height_ height y).toNat : Nat) : Int) =
      nearest s.window_height_ height y := Int.toNat_of_nonneg r0
  have er2 : (((nearest s.window_height_ height y / 2).toNat : Nat) : Int) =
      nearest s.window_height_ height y / 2 := Int.toNat_of_nonneg (by omega)
  have hY := hg.1 (nearest s.window_height_ height y).toNat (cacheEntry s.window_width_ width x)
    (by omega) (by omega)
  have hC := hg.2 (nearest s.window_height_ height y / 2).toNat
    (cacheEntry s.window_width_ width (2 * (x / 2)) >>> 1) (by omega) (by rw [hsh]; omega)
  rw [er] at hY
  rw [er2] at hC
  unfold yOffset uOffset vOffset
  exact ⟨hY, hC.1, hC.2⟩

theorem samples_gray (s : QtPreview) (span : List Nat) (width height stride : Int) (g : Nat)
    (hww : 2 ≤ s.window_width_) (hwh : 2 ≤ s.window_height_) (hw : 0 < width)
    (hh : 0 < height) (hheven : height % 2 = 0)
    (hg : GraySamples span width height stride g)
    (y x : Nat) (hy : y < s.rows) (hx : x < s.cols) :
    samples s span width height stride y x = some (g, 128, 128) := by
  obtain ⟨a, b, d⟩ :=
    reads_gray s span width height stride g hww hwh hw hh hheven hg y x hy hx
  unfold samples
  rw [a, b, d]
  rfl

theorem graySamples_reads (s : QtPreview) (span : List Nat) (width height stride : Int)
    (g : Nat) (hww : 2 ≤ s.window_width_) (hwh : 2 ≤ s.window_height_) (hw : 0 < width)
    (hh : 0 < height) (hheven : height % 2 = 0)
    (hg : GraySamples span width height stride g) :
    ReadsInSpan s span width height stride := by
  intro y hy x hx
  obtain ⟨a, b, d⟩ :=
    reads_gray s span width height stride g hww hwh hw hh hheven hg y x hy hx
  exact ⟨readByte_some _ _ _ a, readByte_some _ _ _ b, readByte_some _ _ _ d⟩

/-- A frame of neutral chroma and luma `g` fills the raster with the byte `g`, in every
build. -/
theorem Show_gray (c : FpContract) (s : QtPreview) (hs : Ready s) (fd : Int) (span : List Nat)
    (width height stride : Int) (g : Nat) (hw : 0 < width) (hh : 0 < height)
    (hheven : height % 2 = 0) (hst : width ≤ stride)
    (hfit : NoOverflow s width height stride) (hc : g ≤ 255)
    (hg : GraySamples span width height stride g) :
    ∃ s' stores, Show c s fd span width height stride =
        some (s', stores ++ [Effect.update, Effect.done fd]) ∧
      (∀ e ∈ stores, ∃ o b, e = Effect.store o b) ∧
      ∀ y < s.rows, ∀ x < s.cols, ∀ k < 3,
        s'.pane_.image[3 * (y * s.cols + x) + k]? = some g := by
  obtain ⟨bs, h, _, hpix⟩ := Show_ready c s hs fd span width height stride hw hh (by omega)
    hfit (graySamples_reads s span width height stride g hs.1 hs.2.1 hw hh hheven hg)
  refine ⟨_, _, h, storesFrom_isStore bs 0, fun y hy x hx k hk => ?_⟩
  obtain ⟨Y, U, V, hsam, hb⟩ := hpix y hy x hx
  rw [samples_gray s span width height stride g hs.1 hs.2.1 hw hh hheven hg y x hy hx] at hsam
  simp only [Option.some.injEq, Prod.mk.injEq] at hsam
  obtain ⟨rfl, rfl, rfl⟩ := hsam
  show bs[3 * (y * s.cols + x) + k]? = some g
  rw [hb k hk, pixel_gray c g (by omega)]
  interval_cases k <;> rfl

theorem grayFrame_length (stride height g : Nat) :
    (grayFrame stride height g).length = stride * height + 2 * (stride / 2 * (height / 2)) := by
  simp [grayFrame]

/-- The bytes of the frame `grayFrame`: `g` in the luma plane, 128 behind it. -/
theorem grayFrame_readByte (stride height g i : Nat) :
    (i < stride * height → readByte (grayFrame stride height g) i = some g) ∧
      (stride * height ≤ i → i < stride * height + 2 * (stride / 2 * (height / 2)) →
        readByte (grayFrame stride height g) i = some 128) := by
  unfold readByte grayFrame
  rw [if_pos (by omega), Int.toNat_ofNat]
  constructor
  · intro hi
    rw [List.getElem?_append_left (by simpa using hi), List.getElem?_replicate, if_pos hi]
  · intro h1 h2
    rw [List.getElem?_append_right (by simpa using h1), List.getElem?_replicate,
      if_pos (by simp only [List.length_replicate]; omega)]

/-- The frame `grayFrame` has neutral chroma, for every width that its rows can hold. -/
theorem grayFrame_samples (stride height g : Nat) (width : Int) (hst : width ≤ stride)
    (hpar : width ≤ 2 * ((stride : Int) / 2)) :
    GraySamples (grayFrame stride height g) width height stride g := by
  have key := grayFrame_readByte stride height g
  constructor
  · intro r col hr hcol
    have e : (r : Int) * stride + (col : Int) = ((r * stride + col : Nat) : Int) := by
      push_cast; ring
    rw [e]
    refine (key _).1 ?_
    have hr2 : r < height := by exact_mod_cast hr
    have hc2 : col < stride := by omega
    calc r * stride + col < r * stride + stride := by omega
      _ = (r + 1) * stride := by ring
      _ ≤ height * stride := Nat.mul_le_mul_right _ hr2
      _ = stride * height := by ring
  · intro r col hr hcol
    have hr2 : r < height / 2 := by omega
    have hc2 : col < stride / 2 := by omega
    have hb : r * (stride / 2) + col < stride / 2 * (height / 2) := by
      calc r * (stride / 2) + col < r * (stride / 2) + stride / 2 := by omega
        _ = (r + 1) * (stride / 2) := by ring
        _ ≤ height / 2 * (stride / 2) := Nat.mul_le_mul_right _ hr2
        _ = stride / 2 * (height / 2) := by ring
    have e1 : (stride : Int) * height + (r : Int) * ((stride : Int) / 2) + (col : Int) =
        ((stride * height + (r * (stride / 2) + col) : Nat) : Int) := by
      push_cast; ring
    have e2 : (stride : Int) * height + (stride : Int) / 2 * ((height : Int) / 2) +
          (r : Int) * ((stride : Int) / 2) + (col : Int) =
        ((stride * height + (stride / 2 * (height / 2) + (r * (stride / 2) + col)) : Nat) :
          Int) := by
      push_cast; ring
    rw [e1, e2]
    exact ⟨(key _).2 (by omega) (by omega), (key _).2 (by omega) (by omega)⟩

theorem sink512x384_ready : Ready sink512x384 := by
  refine ⟨by decide, by decide, by decide, by decide, ?_, Or.inl rfl⟩
  show (newImage 512 384).length = 3 * (512 : Int).toNat * (384 : Int).toNat
  unfold newImage
  rw [List.length_replicate]

/-! ## The claims about frames -/

/-- Claim C12, the failing input.  The options 65538 x 2 construct the sink `sink65538x2`.  The
frame `grayFrame 32770 2 235` of width 32769, height 2 and stride 32770 has the luma 235 and
the chroma 128 at every sample.  Line 87 computes for the position 65537 the product
`65537 * 32768 = 2147516416`, which is not a value of the type `int`: the call has undefined
behaviour, in every build, and no pixel is written as the gray 235.  With the product reduced
to 32 bits the stored index is 32770, and the luma read for the pixel `(65537, 1)` is at
offset `1 * 32770 + 32770 = 65540`, the first byte of the `U` plane, which holds 128. -/
theorem Show_gray_overflow (c : FpContract) :
    (make_qt_preview ⟨65538, 2, 0, 0, false⟩).1 = Except.ok sink65538x2 ∧
      GraySamples (grayFrame 32770 2 235) 32769 2 32770 235 ∧
      ¬ FitsInt ((65537 : Int) * (32769 - 1)) ∧
      Show c sink65538x2 7 (grayFrame 32770 2 235) 32769 2 32770 = none ∧
      toUInt16 (((65537 : Int) * (32769 - 1) - 4294967296 + ((65538 : Int) - 1).tdiv 2).tdiv
        (65538 - 1)) = 32770 ∧
      readByte (grayFrame 32770 2 235) (1 * 32770 + 32770) = some 128 := by
  refine ⟨?_, ?_, by decide, ?_, by decide, ?_⟩
  · rw [make_qt_preview_even _ (by decide) (by decide)]
    rfl
  · have h := grayFrame_samples 32770 2 235 32769 (by decide) (by decide)
    exact_mod_cast h
  · rw [Show_eq, refreshLocations_overflow sink65538x2 32769 (by decide) tableFits_65538_32769]
    rfl
  · exact (grayFrame_readByte 32770 2 235 65540).2 (by decide) (by decide)

/-- Frames of neutral chroma inside the sizes of `int`.  For a ready sink, a frame with
`width > 0`, `height` even and positive, `stride >= width` whose luma samples all equal `g` and whose
chroma samples all equal 128, and a call without overflow, `Show` returns, every byte of every
pixel of the raster is `g` (a gray that differs from `g` by nothing), in every build, and the
release callback is called once, after the stores and the repaint request. -/
theorem Show_neutral_chroma (c : FpContract) (s : QtPreview) (hs : Ready s) (fd : Int)
    (span : List Nat) (width height stride : Int) (g : Nat) (hw : 0 < width)
    (hh : 0 < height) (hheven : height % 2 = 0) (hst : width ≤ stride)
    (hfit : NoOverflow s width height stride) (hc : g ≤ 255)
    (hg : GraySamples span width height stride g) :
    ∃ s' stores, Show c s fd span width height stride =
        some (s', stores ++ [Effect.update, Effect.done fd]) ∧
      (∀ e ∈ stores, ∃ o b, e = Effect.store o b) ∧
      ∀ y < s.rows, ∀ x < s.cols, ∀ k < 3,
        s'.pane_.image[3 * (y * s.cols + x) + k]? = some g :=
  Show_gray c s hs fd span width height stride g hw hh hheven hst hfit hc hg

/-- The documented scenario: the sink 512 x 384 receives one frame of 640 x 480 with stride
640 in which every byte is 128; in every build every raster byte is 128, so every pixel is
`(128, 128, 128)`, within one of `(128, 128, 129)` in each channel, and the release callback is
called once. -/
theorem Show_neutral_chroma_scenario (c : FpContract) :
    (make_qt_preview ⟨512, 384, 0, 0, false⟩).1 = Except.ok sink512x384 ∧
      GraySamples (grayFrame 640 480 128) 640 480 640 128 ∧
      ∃ s' stores, Show c sink512x384 7 (grayFrame 640 480 128) 640 480 640 =
          some (s', stores ++ [Effect.update, Effect.done 7]) ∧
        (∀ e ∈ stores, ∃ o b, e = Effect.store o b) ∧
        ∀ y < sink512x384.rows, ∀ x < sink512x384.cols, ∀ k < 3,
          s'.pane_.image[3 * (y * sink512x384.cols + x) + k]? = some 128 := by
  have hg : GraySamples (grayFrame 640 480 128) 640 480 640 128 := by
    have h := grayFrame_samples 640 480 128 640 (by decide) (by decide)
    exact_mod_cast h
  refine ⟨?_, hg, ?_⟩
  · rw [make_qt_preview_even _ (by decide) (by decide)]
    rfl
  · exact Show_neutral_chroma c sink512x384 sink512x384_ready 7 (grayFrame 640 480 128)
      640 480 640 128 (by decide) (by decide) (by decide) (by decide)
      (sizesFit_noOverflow sink512x384 640 480 640 (by decide) (by decide) (by decide)
        (by decide) (by decide) (by decide)) (by decide) hg

set_option maxRecDepth 20000 in
/-- Claim C13, counterexample.  For the sink 2 x 2 and the frame of width, height and stride 2
with `Y = 235`, `U = 128`, `V = 128` at every sample, `Show` fills the raster with the byte
235, without contraction and with every contraction: every pixel is `(235, 235, 235)`, not
`(255, 255, 255)`. -/
theorem Show_white_counterexample :
    (Show FpContract.off sink2x2 5 (grayFrame 2 2 235) 2 2 2).map
        (fun r : QtPreview × List Effect => r.1.pane_.image) =
      some [235, 235, 235, 235, 235, 235, 235, 235, 235, 235, 235, 235] ∧
    (Show FpContract.on sink2x2 5 (grayFrame 2 2 235) 2 2 2).map
        (fun r : QtPreview × List Effect => r.1.pane_.image) =
      some [235, 235, 235, 235, 235, 235, 235, 235, 235, 235, 235, 235] := by
  decide

/-- Claim C13, amended.  For a ready sink (even window dimensions of at least two), a frame
with `width > 0`, `height` even and positive, `stride >= width`, with `Y = 235`, `U = 128`,
`V = 128` at every sample, and a call in which no `int` operation overflows, `Show` returns
and every pixel of the raster is `(235, 235, 235)`, in every build: the conversion has no
range expansion, and nothing is clamped. -/
theorem Show_white_level (c : FpContract) (s : QtPreview) (hs : Ready s) (fd : Int)
    (span : List Nat) (width height stride : Int) (hw : 0 < width) (hh : 0 < height)
    (hheven : height % 2 = 0) (hst : width ≤ stride)
    (hfit : NoOverflow s width height stride)
    (hg : GraySamples span width height stride 235) :
    ∃ s' eff, Show c s fd span width height stride = some (s', eff) ∧
      ∀ y < s.rows, ∀ x < s.cols, ∀ k < 3,
        s'.pane_.image[3 * (y * s.cols + x) + k]? = some 235 := by
  obtain ⟨s', stores, h, _, hp⟩ :=
    Show_gray c s hs fd span width height stride 235 hw hh hheven hst hfit (by decide) hg
  exact ⟨_, _, h, hp⟩

/-- Witness of claim C13, amended: the sink 2 x 2 and the frame of width, height and stride 2
with `Y = 235` and neutral chroma, in a build that contracts every product. -/
theorem Show_white_level_witness :
    Ready sink2x2 ∧ (0 : Int) < 2 ∧ (2 : Int) % 2 = 0 ∧ (2 : Int) ≤ 2 ∧
      NoOverflow sink2x2 2 2 2 ∧ GraySamples (grayFrame 2 2 235) 2 2 2 235 ∧
      ∃ s' eff, Show FpContract.on sink2x2 5 (grayFrame 2 2 235) 2 2 2 = some (s', eff) ∧
        ∀ y < sink2x2.rows, ∀ x < sink2x2.cols, ∀ k < 3,
          s'.pane_.image[3 * (y * sink2x2.cols + x) + k]? = some 235 := by
  have hg : GraySamples (grayFrame 2 2 235) 2 2 2 235 := by
    have h := grayFrame_samples 2 2 235 2 (by decide) (by decide)
    exact_mod_cast h
  exact ⟨by decide, by decide, by decide, by decide, by decide, hg,
    Show_white_level FpContract.on sink2x2 (by decide) 5 (grayFrame 2 2 235) 2 2 2 (by decide)
      (by decide) (by decide) (by decide) (by decide) hg⟩

set_option maxRecDepth 20000 in
/-- Claim C16, counterexample.  The sink 6 x 2 receives a frame of width 3, height 2 and
stride 3 whose span has exactly the documented size `3 * 2 + 2 * (1 * 1) = 8`.  For the
destination column 4 the index is 2, so the `U` read is at offset `6 + 1 = 7`, which is the
`V` plane, and the `V` read is at offset 8, one past the end of the span: `Show` does not
return, with or without contraction. -/
theorem Show_reads_outside_counterexample :
    Ready sink6x2 ∧
      ([0, 0, 0, 0, 0, 0, 0, 0] : List Nat).length = 3 * 2 + 2 * (3 / 2 * (2 / 2)) ∧
      NoOverflow sink6x2 3 2 3 ∧
      xTable 6 3 = [0, 0, 1, 1, 2, 2] ∧
      uOffset sink6x2 3 2 3 0 4 = 7 ∧ vOffset sink6x2 3 2 3 0 4 = 8 ∧
      Show FpContract.off sink6x2 5 [0, 0, 0, 0, 0, 0, 0, 0] 3 2 3 = none ∧
      Show FpContract.on sink6x2 5 [0, 0, 0, 0, 0, 0, 0, 0] 3 2 3 = none := by
  decide

/-- Claim C16, amended.  For a ready sink (even window dimensions of at least two), a frame
with `width > 0`, `height` even and at least two, `width <= 2 * (stride / 2)` (that is
`stride >= width`, and `stride > width` when the stride is odd) whose span has exactly the
documented size, and a call in which no `int` operation overflows, every read of `Show` is
inside the span: each `Y` read falls in the `Y` plane, each `U` read in the `U` plane and each
`V` read in the `V` plane, and `Show` returns. -/
theorem Show_reads_inside (c : FpContract) (s : QtPreview) (hs : Ready s) (fd : Int)
    (span : List Nat) (width height stride : Int) (hw : 0 < width) (hh : 2 ≤ height)
    (hheven : height % 2 = 0) (hpar : width ≤ 2 * (stride / 2))
    (hlen : (span.length : Int) = stride * height + 2 * (stride / 2 * (height / 2)))
    (hfit : NoOverflow s width height stride) :
    (∀ y < s.rows, ∀ x < s.cols,
      (0 ≤ yOffset s width height stride y x ∧
        yOffset s width height stride y x < stride * height) ∧
      (stride * height ≤ uOffset s width height stride y x ∧
        uOffset s width height stride y x < stride * height + stride / 2 * (height / 2)) ∧
      (stride * height + stride / 2 * (height / 2) ≤ vOffset s width height stride y x ∧
        vOffset s width height stride y x < (span.length : Int))) ∧
      ∃ s' eff, Show c s fd span width height stride = some (s', eff) := by
  refine ⟨reads_in_planes s hs span width height stride hw hh hheven hpar hlen, ?_⟩
  obtain ⟨bs, h, _, _⟩ := Show_ready c s hs fd span width height stride hw (by omega)
    (by omega) hfit
    (reads_in_planes_span s hs span width height stride hw hh hheven hpar hlen)
  exact ⟨_, _, h⟩

/-- Witness of claim C16, amended: the sink 2 x 2 and the frame `frame2x2` of six bytes. -/
theorem Show_reads_inside_witness :
    Ready sink2x2 ∧ (0 : Int) < 2 ∧ (2 : Int) ≤ 2 ∧ (2 : Int) % 2 = 0 ∧
      (2 : Int) ≤ 2 * (2 / 2) ∧
      (frame2x2.length : Int) = 2 * 2 + 2 * (2 / 2 * (2 / 2)) ∧
      NoOverflow sink2x2 2 2 2 ∧
      (∀ y < sink2x2.rows, ∀ x < sink2x2.cols,
        (0 ≤ yOffset sink2x2 2 2 2 y x ∧ yOffset sink2x2 2 2 2 y x < 2 * 2) ∧
        (2 * 2 ≤ uOffset sink2x2 2 2 2 y x ∧
          uOffset sink2x2 2 2 2 y x < 2 * 2 + 2 / 2 * (2 / 2)) ∧
        (2 * 2 + 2 / 2 * (2 / 2) ≤ vOffset sink2x2 2 2 2 y x ∧
          vOffset sink2x2 2 2 2 y x < (frame2x2.length : Int))) ∧
      ∃ s' eff, Show FpContract.off sink2x2 5 frame2x2 2 2 2 = some (s', eff) :=
  ⟨by decide, by decide, by decide, by decide, by decide, by decide, by decide,
    Show_reads_inside FpContract.off sink2x2 (by decide) 5 frame2x2 2 2 2 (by decide)
      (by decide) (by decide) (by decide) (by decide) (by decide)⟩

/-- Claim C17.  For a ready sink of width at most 32766 and a frame width between 1 and 65536,
the first part of `Show` stores one entry for each destination column; for every position `i`
all values of type `int` computed in line 87 lie in `[0, 2 ^ 31 - 1]`, the quotient is at most
65535, and the stored entry is the value of the documented formula over the unbounded
integers. -/
theorem index_table_exact (s : QtPreview) (hs : Ready s) (hd : s.window_width_ ≤ 32766)
    (width : Int) (hw1 : 1 ≤ width) (hw : width ≤ 65536) :
    ∃ s1, refreshLocations s width = some s1 ∧ s1.x_locations_.length = s.cols ∧
      ∀ i < s.cols,
        (∀ z ∈ line87 s.window_width_ width i, 0 ≤ z ∧ z ≤ 2147483647) ∧
        ∃ v, s1.x_locations_[i]? = some v ∧ v ≤ 65535 ∧
          (v : Int) = nearest s.window_width_ width i := by
  have h2 := hs.1
  have hp2 : (32765 : Int) * 65535 = 2147254275 := by decide
  have hfit : TableFits s.window_width_ width := by
    intro i hi z hz
    have hn0 := nearest_nonneg s.window_width_ width i h2 (by omega)
    have hn1 := nearest_le s.window_width_ width i h2 (by omega) (by omega)
    have hq := tdiv_nearest s.window_width_ width i h2 (by omega)
    have hhalf := tdiv_two (s.window_width_ - 1) (by omega)
    have hp0 : 0 ≤ (i : Int) * (width - 1) := mul_nonneg (by omega) (by omega)
    have hp1 : (i : Int) * (width - 1) ≤ 32765 * 65535 :=
      mul_le_mul (by omega) (by omega) (by omega) (by decide)
    unfold FitsInt
    simp only [line87, List.mem_cons, List.mem_singleton, List.not_mem_nil, or_false] at hz
    rcases hz with rfl | rfl | rfl | rfl | rfl | rfl
    · omega
    · omega
    · omega
    · omega
    · omega
    · rw [hq]; omega
  refine ⟨_, refreshLocations_ready s hs width (by omega) hfit, xTable_length _ _,
    fun i hi => ?_⟩
  have hi2 : (i : Int) < s.window_width_ := by unfold QtPreview.cols at hi; omega
  have hn0 := nearest_nonneg s.window_width_ width i h2 (by omega)
  have hn1 := nearest_le s.window_width_ width i h2 (by omega) hi2
  have hq := tdiv_nearest s.window_width_ width i h2 (by omega)
  have hhalf := tdiv_two (s.window_width_ - 1) (by omega)
  have hp0 : 0 ≤ (i : Int) * (width - 1) := mul_nonneg (by omega) (by omega)
  have hp1 : (i : Int) * (width - 1) ≤ 32765 * 65535 :=
    mul_le_mul (by omega) (by omega) (by omega) (by decide)
  constructor
  · intro z hz
    simp only [line87, List.mem_cons, List.mem_singleton, List.not_mem_nil, or_false] at hz
    rcases hz with rfl | rfl | rfl | rfl | rfl | rfl
    · omega
    · omega
    · omega
    · omega
    · omega
    · rw [hq]; omega
  · refine ⟨_, xTable_getElem? _ _ i hi, ?_, ?_⟩
    · have := cacheEntry_exact s.window_width_ width i h2 (by omega) hw hi2
      omega
    · exact cacheEntry_exact s.window_width_ width i h2 (by omega) hw hi2

/-- Witness of claim C17: the sink 2 x 2 and the frame width 65536. -/
theorem index_table_exact_witness :
    Ready sink2x2 ∧ sink2x2.window_width_ ≤ 32766 ∧ (1 : Int) ≤ 65536 ∧ (65536 : Int) ≤ 65536 ∧
      ∃ s1, refreshLocations sink2x2 65536 = some s1 ∧ s1.x_locations_.length = sink2x2.cols ∧
        ∀ i < sink2x2.cols,
          (∀ z ∈ line87 sink2x2.window_width_ 65536 i, 0 ≤ z ∧ z ≤ 2147483647) ∧
          ∃ v, s1.x_locations_[i]? = some v ∧ v ≤ 65535 ∧
            (v : Int) = nearest sink2x2.window_width_ 65536 i :=
  ⟨by decide, by decide, by decide, by decide,
    index_table_exact sink2x2 (by decide) (by decide) 65536 (by decide) (by decide)⟩

end Preview
